import Mathlib

/-
Verification development for the `StreamingToolParser` of this repository:
a character-driven streaming parser for an XML-like tool-invocation
mini-language.  The parser consumes a stream chunk by chunk, validates tag
names against a two-level schema (tools at the outer level, parameters at the
inner level), and emits `block` and `error` events.

The embedding below is a direct translation of the source
(`StreamingToolParser.ts`): strings are modelled as `List Char` (the source
iterates over the characters of each chunk), the mutable `ParserContext` and
the current `ParserState` singleton become one state record `St`, and each
`processChar` method becomes a pure function returning the next state together
with the list of events emitted during that call.
-/

namespace STP

/-- Character strings, modelled as lists of characters. -/
abbrev Str := List Char

/-- JavaScript whitespace, the character class `\s` used by the source in
`/\s/.test(char)` and the set removed by `String.prototype.trim`. -/
def isWS (c : Char) : Bool :=
  c = ' ' || c = '\t' || c = '\n' || c = '\r' ||
  c.val = 11 || c.val = 12 || c.val = 0xa0 || c.val = 0x1680 ||
  (0x2000 ≤ c.val && c.val ≤ 0x200a) ||
  c.val = 0x2028 || c.val = 0x2029 || c.val = 0x202f || c.val = 0x205f ||
  c.val = 0x3000 || c.val = 0xfeff

/-- `String.prototype.trim`: remove leading and trailing whitespace. -/
def jsTrim (s : Str) : Str :=
  (((s.dropWhile isWS).reverse.dropWhile isWS)).reverse

/-- `a.startsWith(b)`: does `b` occur at the start of `a`?  (Arguments:
candidate string first, then the leading segment to test.) -/
def begins : Str → Str → Bool
  | _, [] => true
  | [], _ :: _ => false
  | a :: s, b :: t => a = b && begins s t

/-- Does `pat` occur as a contiguous substring of `s`?  Used to state that
certain characters appear (or do not appear) verbatim in emitted content. -/
def hasSub (s pat : Str) : Bool :=
  match s with
  | [] => begins [] pat
  | _ :: rest => begins s pat || hasSub rest pat

/-- The caller-supplied schema data: `validToolNames` (a set of tool names,
kept here in iteration order) and `validParamNamesByTool`.  The source builds
a tree (root -> tool -> parameter) from these via `buildSchemaFromValidTools`;
we keep the raw data and read the tree structure off it. -/
structure Schema where
  tools : List Str
  paramsByTool : List (Str × List Str)
deriving DecidableEq

/-- `validParamNamesByTool.get(toolName)` with the source's fallback: a tool
with no entry gets an empty child list. -/
def Schema.getParams (sch : Schema) (t : Str) : List Str :=
  match sch.paramsByTool.find? (fun pr => pr.1 = t) with
  | some pr => pr.2
  | none => []

/-- A position in the schema tree built by `buildSchemaFromValidTools`:
the synthetic root, a tool node (child of root), or a parameter node
(child of a tool).  This plays the role of `context.currentNode`. -/
inductive NodePos
  | root
  | tool (t : Str)
  | param (t : Str) (p : Str)
deriving DecidableEq

/-- `NodeSchema.name` of the node at a position (the root node is built with
name `"root"`). -/
def nodeName : NodePos → Str
  | .root => "root".toList
  | .tool t => t
  | .param _ p => p

/-- `NodeSchema.allowedTextContent`: the root allows text, tool nodes do not,
parameter nodes do. -/
def allowsText : NodePos → Bool
  | .root => true
  | .tool _ => false
  | .param _ _ => true

/-- The names of the children of a node (`currentNode.children`); parameter
nodes have no children field. -/
def childNames (sch : Schema) : NodePos → List Str
  | .root => sch.tools
  | .tool t => sch.getParams t
  | .param _ _ => []

/-- `NodeSchema.parent`: the root has none. -/
def parentOf : NodePos → Option NodePos
  | .root => none
  | .tool _ => some .root
  | .param t _ => some (.tool t)

/-- `ParserContext.hasChildSchemaWithPrefix`: does any child name of the
current node start with the given segment? -/
def anyChildBegins (sch : Schema) (node : NodePos) (seg : Str) : Bool :=
  (childNames sch node).any (fun n => begins n seg)

/-- `ParserContext.findChildSchema`: resolve a tag name to a child node of
the current node. -/
def findChild (sch : Schema) (node : NodePos) (tag : Str) : Option NodePos :=
  match node with
  | .root => if tag ∈ sch.tools then some (.tool tag) else none
  | .tool t => if tag ∈ sch.getParams t then some (.param t tag) else none
  | .param _ _ => none

/-- The in-flight `ToolUse` object: a name and a params map (a JavaScript
object, modelled as an association list in insertion order). -/
structure ToolUse where
  name : Str
  params : List (Str × Str)
deriving DecidableEq

/-- JavaScript object assignment `params[key] = value`: overwrite in place if
the key exists, append otherwise. -/
def setParam : List (Str × Str) → Str → Str → List (Str × Str)
  | [], k, v => [(k, v)]
  | (k', v') :: rest, k, v =>
    if k' = k then (k, v) :: rest else (k', v') :: setParam rest k v

/-- An emitted content block (`TextContent` or `ToolUse`), with its
`partial` flag (called `isPart` here). -/
inductive Block
  | text (content : Str) (isPart : Bool)
  | toolUse (name : Str) (ps : List (Str × Str)) (isPart : Bool)
deriving DecidableEq

/-- An emitted event: a `block` event or an `error` event. -/
inductive Ev
  | blk (b : Block)
  | err (msg : Str)
deriving DecidableEq

/-- `ParseStateEnum`: the five parser states. -/
inductive PState
  | text
  | tagOpening
  | tagName
  | textContent
  | closingTag
deriving DecidableEq

/-- The whole mutable state of one parser instance: the current
`ParserState` plus all fields of `ParserContext` that ever change. -/
structure St where
  pstate : PState
  textBuffer : Str
  tagBuffer : Str
  paramValueBuffer : Str
  closingTagBuffer : Str
  currentNode : NodePos
  currentToolUse : Option ToolUse
  currentParamName : Option Str
deriving DecidableEq

/-- The state of a freshly constructed parser. -/
def initSt : St :=
  { pstate := .text
    textBuffer := []
    tagBuffer := []
    paramValueBuffer := []
    closingTagBuffer := []
    currentNode := .root
    currentToolUse := none
    currentParamName := none }

/-- `ParserContext.resetParamState`. -/
def resetParamState (st : St) : St :=
  { st with currentParamName := none, paramValueBuffer := [] }

/-- `ParserContext.resetToolState`. -/
def resetToolState (st : St) : St :=
  { resetParamState st with currentToolUse := none, tagBuffer := [], closingTagBuffer := [] }

/-- `ParserContext.storeCurrentParamValue`. -/
def storeParamValue (st : St) : St :=
  match st.currentToolUse, st.currentParamName with
  | some tu, some p =>
    { st with currentToolUse := some { tu with params := setParam tu.params p st.paramValueBuffer } }
  | _, _ => st

/-- `TextState.processChar`. -/
def textStep (st : St) (c : Char) : St × List Ev :=
  if c = '<' then
    if st.textBuffer ≠ [] ∧ jsTrim st.textBuffer ≠ [] then
      ({ st with textBuffer := [], tagBuffer := [], pstate := .tagOpening },
       [.blk (.text (jsTrim st.textBuffer) false)])
    else
      ({ st with tagBuffer := [], pstate := .tagOpening }, [])
  else if ¬ allowsText st.currentNode then
    if ¬ isWS c then
      ({ st with textBuffer := st.textBuffer ++ [c] },
       [.err ("Unexpected character \"".toList ++ [c] ++ "\" outside of allowed text content".toList)])
    else
      (st, [])
  else
    ({ st with textBuffer := st.textBuffer ++ [c] }, [])

/-- `TagOpeningState.processChar`. -/
def tagOpeningStep (relaxed : Bool) (st : St) (c : Char) : St × List Ev :=
  if c = '/' then
    if (parentOf st.currentNode).isSome then
      ({ st with closingTagBuffer := [], pstate := .closingTag }, [])
    else
      ({ st with textBuffer := st.textBuffer ++ "</".toList, pstate := .text },
       if relaxed then [] else [.err "Closing tag without matching opening tag".toList])
  else if isWS c then
    ({ st with textBuffer := st.textBuffer ++ '<' :: [c], pstate := .text },
     if relaxed then [] else [.err "Unexpected whitespace after '<'".toList])
  else
    ({ st with tagBuffer := [c], pstate := .tagName }, [])

/-- The literal `<` + buffered name + current character re-inserted by the
invalid-tag recovery. -/
def invalidLit (st : St) (c : Char) : Str := '<' :: (st.tagBuffer ++ [c])

/-- The unrecoverable-position fallback of `handleInvalidTag`: append the
literal to the text buffer, reset the tool state and return to the root. -/
def invalidFallback (st : St) (c : Char) : St :=
  { resetToolState { st with textBuffer := st.textBuffer ++ invalidLit st c, tagBuffer := [] } with currentNode := NodePos.root, pstate := PState.text }

/-- `TagNameState.handleInvalidTag`.  `st.tagBuffer` is the buffered name at
the moment of the call (in the mid-name path it already includes `c`). -/
def handleInvalidTag (relaxed : Bool) (st : St) (c : Char) : St × List Ev :=
  if relaxed then
    if st.currentNode = .root then
      ({ st with textBuffer := st.textBuffer ++ invalidLit st c, tagBuffer := [], pstate := .text }, [])
    else if allowsText st.currentNode then
      ({ st with paramValueBuffer := st.paramValueBuffer ++ invalidLit st c, tagBuffer := [], pstate := .textContent }, [])
    else
      (invalidFallback st c, [])
  else
    if st.currentNode = .root then
      ({ st with textBuffer := st.textBuffer ++ invalidLit st c, tagBuffer := [], pstate := .text },
       [.err ("Invalid tool name: ".toList ++ st.tagBuffer)])
    else if parentOf st.currentNode = some .root then
      ({ st with paramValueBuffer := st.paramValueBuffer ++ invalidLit st c, tagBuffer := [], pstate := .textContent },
       [.err ("Invalid param name: ".toList ++ st.tagBuffer ++ " for tool ".toList ++ nodeName st.currentNode)])
    else if allowsText st.currentNode then
      ({ st with paramValueBuffer := st.paramValueBuffer ++ invalidLit st c, tagBuffer := [], pstate := .textContent },
       [.err ("Invalid tag name: ".toList ++ st.tagBuffer ++ " in ".toList ++ nodeName st.currentNode)])
    else
      (invalidFallback st c, [])

/-- `TagNameState.handleValidTag`. -/
def handleValidTag (st : St) (matched : NodePos) : St × List Ev :=
  let st := { st with currentNode := matched }
  match matched with
  | .tool t =>
    ({ st with currentToolUse := some { name := t, params := [] }, tagBuffer := [], pstate := .textContent }, [])
  | .param _ p =>
    ({ st with currentParamName := some p, paramValueBuffer := [], tagBuffer := [], pstate := .textContent }, [])
  | .root =>
    ({ st with pstate := .text },
     [.err ("Unexpected tag structure for ".toList ++ nodeName matched)])

/-- `TagNameState.processChar`. -/
def tagNameStep (sch : Schema) (relaxed : Bool) (st : St) (c : Char) : St × List Ev :=
  if c ≠ '>' ∧ ¬ isWS c then
    if ¬ anyChildBegins sch st.currentNode (st.tagBuffer ++ [c]) then
      handleInvalidTag relaxed { st with tagBuffer := st.tagBuffer ++ [c] } c
    else
      ({ st with tagBuffer := st.tagBuffer ++ [c] }, [])
  else
    match findChild sch st.currentNode st.tagBuffer with
    | some m =>
      if c = '>' then
        handleValidTag st m
      else
        let r := handleInvalidTag relaxed st c
        (r.1, .err "Unexpected whitespace in parameter tag".toList :: r.2)
    | none => handleInvalidTag relaxed st c

/-- `TextContentState.processChar`. -/
def textContentStep (st : St) (c : Char) : St × List Ev :=
  if c = '<' then
    ({ st with tagBuffer := [], pstate := .tagOpening }, [])
  else if st.currentParamName.isSome then
    ({ st with paramValueBuffer := st.paramValueBuffer ++ [c] }, [])
  else if allowsText st.currentNode then
    ({ st with textBuffer := st.textBuffer ++ [c] }, [])
  else if isWS c then
    (st, [])
  else
    ({ st with textBuffer := st.textBuffer ++ [c] },
     [.err ("Unexpected character \"".toList ++ [c] ++ "\" in ".toList ++ nodeName st.currentNode ++ " context".toList)])

/-- The closing-tag literal `</tag` (no trailing `>`) re-inserted by the
early-mismatch recovery. -/
def closeLitNoGt (tag : Str) : Str := "</".toList ++ tag

/-- The mismatched-closing-tag error message of the early prefix check (it
carries no trailing `>`). -/
def mismatchMsgNoGt (node : NodePos) (tag : Str) : Str :=
  "Mismatched closing tag: expected </".toList ++ nodeName node ++ "> but got </".toList ++ tag

/-- `ClosingTagState.handleMismatchedClosingTag` (the early prefix-check
failure path). -/
def handleMismatchedClosingTag (relaxed : Bool) (st : St) : St × List Ev :=
  if relaxed ∧ allowsText st.currentNode then
    if st.currentParamName.isSome then
      ({ st with paramValueBuffer := st.paramValueBuffer ++ closeLitNoGt st.closingTagBuffer, closingTagBuffer := [], pstate := .textContent }, [])
    else
      ({ st with textBuffer := st.textBuffer ++ closeLitNoGt st.closingTagBuffer, closingTagBuffer := [], pstate := .text }, [])
  else
    if allowsText st.currentNode then
      if st.currentParamName.isSome then
        ({ st with paramValueBuffer := st.paramValueBuffer ++ closeLitNoGt st.closingTagBuffer, closingTagBuffer := [], pstate := .textContent }, [.err (mismatchMsgNoGt st.currentNode st.closingTagBuffer)])
      else
        ({ st with textBuffer := st.textBuffer ++ closeLitNoGt st.closingTagBuffer, closingTagBuffer := [], pstate := .text }, [.err (mismatchMsgNoGt st.currentNode st.closingTagBuffer)])
    else
      ({ resetToolState { st with textBuffer := st.textBuffer ++ closeLitNoGt st.closingTagBuffer, closingTagBuffer := [] } with currentNode := .root, pstate := .text }, [.err (mismatchMsgNoGt st.currentNode st.closingTagBuffer)])

/-- After a matching closing tag is handled, move `currentNode` up to its
parent, clear the closing-tag buffer, and enter `Text` at the root or
`TextContent` otherwise (the tail of `processClosingTag`). -/
def closeAscend (st : St) : St :=
  { st with currentNode := (parentOf st.currentNode).getD .root, closingTagBuffer := [], pstate := if (parentOf st.currentNode).getD .root = NodePos.root then PState.text else PState.textContent }

/-- The matching-closing-tag branch of `processClosingTag`: close a parameter
(store its value) or close a tool (emit the finished `ToolUse` block), then
ascend. -/
def closeMatched (st : St) : St × List Ev :=
  if st.currentParamName = some st.closingTagBuffer then
    (closeAscend (resetParamState (storeParamValue st)), [])
  else
    match st.currentToolUse with
    | some tu =>
      if tu.name = st.closingTagBuffer then
        (closeAscend (resetToolState st), [Ev.blk (.toolUse tu.name tu.params false)])
      else (closeAscend st, [])
    | none => (closeAscend st, [])

/-- The full closing-tag literal `</tag>` re-inserted by recovery. -/
def closeLit (tag : Str) : Str := "</".toList ++ tag ++ ">".toList

/-- The mismatched-closing-tag error message of `processClosingTag` (with the
trailing `>`). -/
def mismatchMsgFull (node : NodePos) (tag : Str) : Str :=
  "Mismatched closing tag: expected </".toList ++ nodeName node ++ "> but got </".toList ++ tag ++ ">".toList

/-- `ClosingTagState.processClosingTag` (on reading `>`). -/
def processClosingTag (relaxed : Bool) (st : St) : St × List Ev :=
  if nodeName st.currentNode = st.closingTagBuffer then
    closeMatched st
  else
    if relaxed ∧ allowsText st.currentNode then
      if st.currentParamName.isSome then
        ({ st with paramValueBuffer := st.paramValueBuffer ++ closeLit st.closingTagBuffer, pstate := .textContent }, [])
      else
        ({ st with textBuffer := st.textBuffer ++ closeLit st.closingTagBuffer, pstate := .text }, [])
    else
      if allowsText st.currentNode then
        if st.currentParamName.isSome then
          ({ st with paramValueBuffer := st.paramValueBuffer ++ closeLit st.closingTagBuffer, pstate := .textContent }, [.err (mismatchMsgFull st.currentNode st.closingTagBuffer)])
        else
          ({ st with textBuffer := st.textBuffer ++ closeLit st.closingTagBuffer, pstate := .text }, [.err (mismatchMsgFull st.currentNode st.closingTagBuffer)])
      else
        ({ resetToolState { st with textBuffer := st.textBuffer ++ closeLit st.closingTagBuffer } with currentNode := .root, pstate := .text }, [.err (mismatchMsgFull st.currentNode st.closingTagBuffer)])

/-- `ClosingTagState.processChar`. -/
def closingTagStep (relaxed : Bool) (st : St) (c : Char) : St × List Ev :=
  if c = '>' then
    processClosingTag relaxed st
  else
    if (nodeName st.currentNode).take (st.closingTagBuffer ++ [c]).length ≠ st.closingTagBuffer ++ [c] then
      handleMismatchedClosingTag relaxed { st with closingTagBuffer := st.closingTagBuffer ++ [c] }
    else
      ({ st with closingTagBuffer := st.closingTagBuffer ++ [c] }, [])

/-- One character step: dispatch on the current `ParserState`. -/
def stepChar (sch : Schema) (relaxed : Bool) (st : St) (c : Char) : St × List Ev :=
  match st.pstate with
  | .text => textStep st c
  | .tagOpening => tagOpeningStep relaxed st c
  | .tagName => tagNameStep sch relaxed st c
  | .textContent => textContentStep st c
  | .closingTag => closingTagStep relaxed st c

/-- The character loop of `processChunk`, without the chunk-end emission. -/
def processChars (sch : Schema) (relaxed : Bool) (st : St) : Str → St × List Ev
  | [] => (st, [])
  | c :: rest =>
    let r1 := stepChar sch relaxed st c
    let r2 := processChars sch relaxed r1.1 rest
    (r2.1, r1.2 ++ r2.2)

/-- The tail of the tool branch of `emitPartialAtChunkEnd`: publish a copy of
the current in-flight tool-use as a `partial = true` block. -/
def emitToolSnapshot (st : St) : St × List Ev :=
  match st.currentToolUse with
  | some tu => (st, [.blk (.toolUse tu.name tu.params true)])
  | none => (st, [])

/-- The transient store performed by `emitPartialAtChunkEnd` before taking a
snapshot: if we are mid-parameter-value, copy the buffer into the working
params map. -/
def chunkEndStore (st : St) : St :=
  if st.pstate = .textContent ∧ st.currentNode ≠ .root then storeParamValue st else st

/-- `StreamingToolParser.emitPartialAtChunkEnd`. -/
def emitPartialAtChunkEnd (st : St) : St × List Ev :=
  if st.pstate = .text ∧ st.textBuffer ≠ [] then
    if jsTrim st.textBuffer ≠ [] then (st, [.blk (.text (jsTrim st.textBuffer) true)]) else (st, [])
  else
    match st.currentToolUse with
    | some _ => emitToolSnapshot (chunkEndStore st)
    | none => (st, [])

/-- `StreamingToolParser.processChunk`. -/
def processChunk (sch : Schema) (relaxed : Bool) (st : St) (cs : Str) : St × List Ev :=
  let r1 := processChars sch relaxed st cs
  let r2 := emitPartialAtChunkEnd r1.1
  (r2.1, r1.2 ++ r2.2)

/-- `StreamingToolParser.finalize`. -/
def finalizeStep (st : St) : St × List Ev :=
  let evs : List Ev :=
    if st.pstate = .text ∧ st.textBuffer ≠ [] ∧ jsTrim st.textBuffer ≠ [] then
      [.blk (.text (jsTrim st.textBuffer) false)]
    else []
  (initSt, evs)

/-- One driver operation: feed one character of the current chunk, end the
current chunk (triggering `emitPartialAtChunkEnd`), or call `finalize`.
A call `processChunk(s)` is the operation list `chunkOps s`. -/
inductive Op
  | pc (c : Char)
  | cut
  | fin
deriving DecidableEq

/-- One driver operation applied to a state. -/
def stepOp (sch : Schema) (relaxed : Bool) (st : St) : Op → St × List Ev
  | .pc c => stepChar sch relaxed st c
  | .cut => emitPartialAtChunkEnd st
  | .fin => finalizeStep st

/-- Run a list of driver operations, collecting all emitted events. -/
def exec (sch : Schema) (relaxed : Bool) (st : St) : List Op → St × List Ev
  | [] => (st, [])
  | op :: rest =>
    let r1 := stepOp sch relaxed st op
    let r2 := exec sch relaxed r1.1 rest
    (r2.1, r1.2 ++ r2.2)

/-- The operation list of one `processChunk(s)` call. -/
def chunkOps (s : Str) : List Op := s.map Op.pc ++ [Op.cut]

/-- Events of a full run from a fresh parser. -/
def runEvents (sch : Schema) (relaxed : Bool) (ops : List Op) : List Ev :=
  (exec sch relaxed initSt ops).2

/-- State of a full run from a fresh parser. -/
def runState (sch : Schema) (relaxed : Bool) (ops : List Op) : St :=
  (exec sch relaxed initSt ops).1

/-- Is this event a block with `partial = false`?  Claim C1 compares the
sequences of these. -/
def isFinalBlock : Ev → Bool
  | .blk (.text _ false) => true
  | .blk (.toolUse _ _ false) => true
  | _ => false

/-- The subsequence of emitted blocks with `partial = false`. -/
def finalBlocks (evs : List Ev) : List Ev := evs.filter isFinalBlock

/-- Is this an error event? -/
def isErr : Ev → Bool
  | .err _ => true
  | _ => false

/-- Is this event a `ToolUse` block (of either partiality)? -/
def isToolBlock : Ev → Bool
  | .blk (.toolUse _ _ _) => true
  | _ => false

/-- A text block is well-formed when its content is non-empty and equal to
its own trim. -/
def textOk : Ev → Bool
  | .blk (.text c _) => decide (c ≠ [] ∧ jsTrim c = c)
  | _ => true

/-- The schema used by the repository's unit tests, restricted to the
`read_file` tool; used for concrete witness runs. -/
def sampleSchema : Schema :=
  { tools := ["read_file".toList]
    paramsByTool := [("read_file".toList, ["path".toList, "start_line".toList, "end_line".toList])] }

/-! ### Basic lemmas about the driver -/

theorem processChars_append (sch : Schema) (relaxed : Bool) (st : St) (a b : Str) :
    processChars sch relaxed st (a ++ b) =
      ((processChars sch relaxed (processChars sch relaxed st a).1 b).1,
       (processChars sch relaxed st a).2 ++
         (processChars sch relaxed (processChars sch relaxed st a).1 b).2) := by
  induction a generalizing st with
  | nil => simp [processChars]
  | cons c rest ih => simp [processChars, ih, List.append_assoc]

theorem exec_append (sch : Schema) (relaxed : Bool) (st : St) (a b : List Op) :
    exec sch relaxed st (a ++ b) =
      ((exec sch relaxed (exec sch relaxed st a).1 b).1,
       (exec sch relaxed st a).2 ++ (exec sch relaxed (exec sch relaxed st a).1 b).2) := by
  induction a generalizing st with
  | nil => simp [exec]
  | cons op rest ih => simp [exec, ih, List.append_assoc]

theorem exec_map_pc (sch : Schema) (relaxed : Bool) (st : St) (s : Str) :
    exec sch relaxed st (s.map Op.pc) = processChars sch relaxed st s := by
  induction s generalizing st with
  | nil => simp [exec, processChars]
  | cons c rest ih => simp [exec, processChars, stepOp, ih]

theorem exec_chunkOps (sch : Schema) (relaxed : Bool) (st : St) (s : Str) :
    exec sch relaxed st (chunkOps s) = processChunk sch relaxed st s := by
  simp [chunkOps, exec_append, exec_map_pc, processChunk, exec, stepOp]

/-! ### Lemmas about `jsTrim` -/

theorem dropWhile_head_false (p : Char → Bool) :
    ∀ (l : Str) (a : Char) (r : Str), l.dropWhile p = a :: r → p a = false := by
  intro l
  induction l with
  | nil => intro a r h; simp [List.dropWhile] at h
  | cons x xs ih =>
    intro a r h
    by_cases hx : p x
    · exact ih a r (by simpa [List.dropWhile, hx] using h)
    · rw [List.dropWhile_cons_of_neg hx] at h
      cases h
      simpa using hx

theorem dropWhile_self (p : Char → Bool) (l : Str) :
    (l.dropWhile p).dropWhile p = l.dropWhile p := by
  cases h : l.dropWhile p with
  | nil => simp
  | cons a r =>
    have := dropWhile_head_false p l a r h
    simp [List.dropWhile, this]

theorem trimEnd_no_head_ws (l : Str) (hl : l.dropWhile isWS = l) :
    ((l.reverse.dropWhile isWS).reverse).dropWhile isWS =
      (l.reverse.dropWhile isWS).reverse := by
  cases hR : (l.reverse.dropWhile isWS).reverse with
  | nil => simp
  | cons b w =>
    have hsplit : (l.reverse.dropWhile isWS).reverse ++ (l.reverse.takeWhile isWS).reverse = l := by
      rw [← List.reverse_append, List.takeWhile_append_dropWhile, List.reverse_reverse]
    have hl2 : l = b :: (w ++ (l.reverse.takeWhile isWS).reverse) := by
      conv_lhs => rw [← hsplit, hR]
      simp
    have hb : isWS b = false :=
      dropWhile_head_false isWS l b _ (hl.trans hl2)
    exact List.dropWhile_cons_of_neg (by simp [hb])

theorem jsTrim_idem (s : Str) : jsTrim (jsTrim s) = jsTrim s := by
  unfold jsTrim
  rw [trimEnd_no_head_ws (s.dropWhile isWS) (dropWhile_self isWS s)]
  rw [List.reverse_reverse, dropWhile_self]

theorem jsTrim_nil : jsTrim [] = [] := rfl

theorem jsTrim_ne_nil_of_ne {s : Str} (h : jsTrim s ≠ []) : s ≠ [] := by
  intro hs; rw [hs] at h; exact h jsTrim_nil

/-! ### Per-step facts used by several invariants -/

theorem textStep_all_textOk (st : St) (c : Char) :
    ((textStep st c).2.all textOk) = true := by
  unfold textStep
  split
  · split
    · simp [textOk, jsTrim_idem]
      intro h
      rename_i hcond
      exact hcond.2 h
    · simp
  · split
    · split <;> simp [textOk]
    · simp

theorem tagOpeningStep_all_textOk (relaxed : Bool) (st : St) (c : Char) :
    ((tagOpeningStep relaxed st c).2.all textOk) = true := by
  unfold tagOpeningStep
  split
  · split
    · simp
    · split <;> simp [textOk]
  · split
    · split <;> simp [textOk]
    · simp

theorem handleInvalidTag_all_textOk (relaxed : Bool) (st : St) (c : Char) :
    ((handleInvalidTag relaxed st c).2.all textOk) = true := by
  unfold handleInvalidTag
  split
  · split
    · simp
    · split <;> simp [textOk]
  · split
    · simp [textOk]
    · split
      · simp [textOk]
      · split <;> simp [textOk]

theorem handleValidTag_all_textOk (st : St) (matched : NodePos) :
    ((handleValidTag st matched).2.all textOk) = true := by
  unfold handleValidTag
  cases matched <;> simp [textOk]

theorem tagNameStep_all_textOk (sch : Schema) (relaxed : Bool) (st : St) (c : Char) :
    ((tagNameStep sch relaxed st c).2.all textOk) = true := by
  unfold tagNameStep
  split
  · split
    · exact handleInvalidTag_all_textOk _ _ _
    · simp
  · split
    · split
      · exact handleValidTag_all_textOk _ _
      · have h := handleInvalidTag_all_textOk relaxed st c
        simp only [List.all_cons, Bool.and_eq_true] at *
        exact ⟨by simp [textOk], h⟩
    · exact handleInvalidTag_all_textOk _ _ _

theorem textContentStep_all_textOk (st : St) (c : Char) :
    ((textContentStep st c).2.all textOk) = true := by
  unfold textContentStep
  split
  · simp
  · split
    · simp
    · split
      · simp
      · split <;> simp [textOk]

theorem handleMismatchedClosingTag_all_textOk (relaxed : Bool) (st : St) :
    ((handleMismatchedClosingTag relaxed st).2.all textOk) = true := by
  unfold handleMismatchedClosingTag
  split
  · split <;> simp
  · split
    · split <;> simp [textOk]
    · simp [textOk]

theorem closeMatched_all_textOk (st : St) :
    ((closeMatched st).2.all textOk) = true := by
  unfold closeMatched
  split
  · simp
  · split
    · split <;> simp [textOk]
    · simp

theorem processClosingTag_all_textOk (relaxed : Bool) (st : St) :
    ((processClosingTag relaxed st).2.all textOk) = true := by
  unfold processClosingTag
  split
  · exact closeMatched_all_textOk _
  · split
    · split <;> simp
    · split
      · split <;> simp [textOk]
      · simp [textOk]

theorem closingTagStep_all_textOk (relaxed : Bool) (st : St) (c : Char) :
    ((closingTagStep relaxed st c).2.all textOk) = true := by
  unfold closingTagStep
  split
  · exact processClosingTag_all_textOk _ _
  · split
    · exact handleMismatchedClosingTag_all_textOk _ _
    · simp

theorem stepChar_all_textOk (sch : Schema) (relaxed : Bool) (st : St) (c : Char) :
    ((stepChar sch relaxed st c).2.all textOk) = true := by
  unfold stepChar
  cases h : st.pstate
  · exact textStep_all_textOk _ _
  · exact tagOpeningStep_all_textOk _ _ _
  · exact tagNameStep_all_textOk _ _ _ _
  · exact textContentStep_all_textOk _ _
  · exact closingTagStep_all_textOk _ _ _

theorem emitPartialAtChunkEnd_all_textOk (st : St) :
    ((emitPartialAtChunkEnd st).2.all textOk) = true := by
  unfold emitPartialAtChunkEnd
  split
  · split
    · simp [textOk, jsTrim_idem]
      intro h
      rename_i hcond _
      exact absurd h (by rename_i h2; exact h2)
    · simp
  · split
    · unfold emitToolSnapshot
      split <;> simp [textOk]
    · simp

theorem finalizeStep_all_textOk (st : St) :
    ((finalizeStep st).2.all textOk) = true := by
  unfold finalizeStep
  split
  · rename_i hcond
    simp [textOk, jsTrim_idem]
    exact hcond.2.2
  · simp

theorem stepOp_all_textOk (sch : Schema) (relaxed : Bool) (st : St) (op : Op) :
    ((stepOp sch relaxed st op).2.all textOk) = true := by
  cases op
  · exact stepChar_all_textOk _ _ _ _
  · exact emitPartialAtChunkEnd_all_textOk _
  · exact finalizeStep_all_textOk _

theorem exec_all_textOk (sch : Schema) (relaxed : Bool) (ops : List Op) :
    ∀ st : St, ((exec sch relaxed st ops).2.all textOk) = true := by
  induction ops with
  | nil => intro st; simp [exec]
  | cons op rest ih =>
    intro st
    simp only [exec, List.all_append, Bool.and_eq_true]
    exact ⟨stepOp_all_textOk sch relaxed st op, ih _⟩

/-! ### The structural invariant tying `currentNode`, `currentToolUse`,
`currentParamName` and `paramValueBuffer` together -/

/-- Structural invariant of every reachable parser state: at the root no
tool-use is in flight, no parameter is open and the parameter buffer is
empty; at a tool node a tool-use with that name is in flight and no parameter
is open; at a parameter node that parameter is open and the enclosing tool's
tool-use is in flight. -/
def StInv (st : St) : Prop :=
  (st.currentNode = NodePos.root →
    st.currentToolUse = none ∧ st.currentParamName = none ∧ st.paramValueBuffer = []) ∧
  (∀ t, st.currentNode = NodePos.tool t →
    st.currentParamName = none ∧ ∃ tu, st.currentToolUse = some tu ∧ tu.name = t) ∧
  (∀ t p, st.currentNode = NodePos.param t p →
    st.currentParamName = some p ∧ ∃ tu, st.currentToolUse = some tu ∧ tu.name = t)

theorem StInv_initSt : StInv initSt := by
  refine ⟨fun _ => ⟨rfl, rfl, rfl⟩, fun t ht => ?_, fun t p ht => ?_⟩ <;> simp [initSt] at ht

theorem StInv_of_fields_eq {st st' : St}
    (h1 : st'.currentNode = st.currentNode)
    (h2 : st'.currentToolUse = st.currentToolUse)
    (h3 : st'.currentParamName = st.currentParamName)
    (h4 : st'.paramValueBuffer = st.paramValueBuffer)
    (h : StInv st) : StInv st' := by
  unfold StInv
  rw [h1, h2, h3, h4]
  exact h

theorem StInv_of_fields_nonroot {st : St} (h : StInv st)
    (hnr : st.currentNode ≠ NodePos.root) {st' : St}
    (h1 : st'.currentNode = st.currentNode)
    (h2 : st'.currentToolUse = st.currentToolUse)
    (h3 : st'.currentParamName = st.currentParamName) : StInv st' := by
  obtain ⟨_, htool, hparam⟩ := h
  refine ⟨fun hr => absurd (h1 ▸ hr) hnr, fun t ht => ?_, fun t p ht => ?_⟩
  · rw [h2, h3]; exact htool t (h1 ▸ ht)
  · rw [h2, h3]; exact hparam t p (h1 ▸ ht)

theorem StInv_of_cleared {st' : St}
    (h1 : st'.currentToolUse = none)
    (h2 : st'.currentParamName = none)
    (h3 : st'.paramValueBuffer = [])
    (h4 : st'.currentNode = NodePos.root) : StInv st' := by
  refine ⟨fun _ => ⟨h1, h2, h3⟩, fun t ht => ?_, fun t p ht => ?_⟩ <;>
    (rw [h4] at ht; cases ht)

theorem StInv_paramName_none_at_root {st : St} (h : StInv st)
    (hr : st.currentNode = NodePos.root) : st.currentParamName = none :=
  (h.1 hr).2.1

theorem StInv_nonroot_of_paramName {st : St} (h : StInv st)
    (hp : st.currentParamName.isSome = true) : st.currentNode ≠ NodePos.root := by
  intro hr
  rw [(h.1 hr).2.1] at hp
  cases hp

theorem textStep_inv (st : St) (c : Char) (h : StInv st) : StInv (textStep st c).1 := by
  unfold textStep
  repeat' split
  all_goals exact StInv_of_fields_eq rfl rfl rfl rfl h

theorem tagOpeningStep_inv (relaxed : Bool) (st : St) (c : Char) (h : StInv st) :
    StInv (tagOpeningStep relaxed st c).1 := by
  unfold tagOpeningStep
  repeat' split
  all_goals exact StInv_of_fields_eq rfl rfl rfl rfl h

theorem handleInvalidTag_inv (relaxed : Bool) (st : St) (c : Char) (h : StInv st) :
    StInv (handleInvalidTag relaxed st c).1 := by
  unfold handleInvalidTag
  split
  · split
    · exact StInv_of_fields_eq rfl rfl rfl rfl h
    · split
      · rename_i hnr _
        exact StInv_of_fields_nonroot h hnr rfl rfl rfl
      · exact StInv_of_cleared rfl rfl rfl rfl
  · split
    · exact StInv_of_fields_eq rfl rfl rfl rfl h
    · split
      · rename_i hnr _
        exact StInv_of_fields_nonroot h hnr rfl rfl rfl
      · split
        · rename_i hnr _ _
          exact StInv_of_fields_nonroot h hnr rfl rfl rfl
        · exact StInv_of_cleared rfl rfl rfl rfl

theorem handleValidTag_inv (sch : Schema) (st : St) (m : NodePos) (h : StInv st)
    (hm : findChild sch st.currentNode st.tagBuffer = some m) :
    StInv (handleValidTag st m).1 := by
  cases hnode : st.currentNode with
  | root =>
    rw [hnode] at hm
    by_cases hmem : st.tagBuffer ∈ sch.tools
    · rw [findChild, if_pos hmem] at hm
      cases hm
      unfold handleValidTag
      obtain ⟨_, hpn, _⟩ := h.1 hnode
      refine And.intro (fun hr => ?_) (And.intro (fun t ht => ?_) (fun t p ht => ?_))
      · cases hr
      · cases ht
        exact ⟨hpn, ⟨{ name := st.tagBuffer, params := [] }, rfl, rfl⟩⟩
      · cases ht
    · rw [findChild, if_neg hmem] at hm
      cases hm
  | tool t0 =>
    rw [hnode] at hm
    by_cases hmem : st.tagBuffer ∈ sch.getParams t0
    · rw [findChild, if_pos hmem] at hm
      cases hm
      unfold handleValidTag
      obtain ⟨hpn, tu, htu, hname⟩ := h.2.1 t0 hnode
      refine And.intro (fun hr => ?_) (And.intro (fun t ht => ?_) (fun t p ht => ?_))
      · cases hr
      · cases ht
      · cases ht
        exact ⟨rfl, ⟨tu, htu, hname⟩⟩
    · rw [findChild, if_neg hmem] at hm
      cases hm
  | param t0 p0 =>
    rw [hnode, findChild] at hm
    cases hm

theorem tagNameStep_inv (sch : Schema) (relaxed : Bool) (st : St) (c : Char) (h : StInv st) :
    StInv (tagNameStep sch relaxed st c).1 := by
  unfold tagNameStep
  split
  · split
    · exact handleInvalidTag_inv relaxed _ c (StInv_of_fields_eq rfl rfl rfl rfl h)
    · exact StInv_of_fields_eq rfl rfl rfl rfl h
  · split
    · split
      · rename_i m heq _
        exact handleValidTag_inv sch st m h heq
      · exact handleInvalidTag_inv relaxed st c h
    · exact handleInvalidTag_inv relaxed st c h

theorem textContentStep_inv (st : St) (c : Char) (h : StInv st) :
    StInv (textContentStep st c).1 := by
  unfold textContentStep
  split
  · exact StInv_of_fields_eq rfl rfl rfl rfl h
  · split
    · rename_i hps
      exact StInv_of_fields_nonroot h (StInv_nonroot_of_paramName h hps) rfl rfl rfl
    · split
      · exact StInv_of_fields_eq rfl rfl rfl rfl h
      · split
        · exact h
        · exact StInv_of_fields_eq rfl rfl rfl rfl h

theorem handleMismatchedClosingTag_inv (relaxed : Bool) (st : St) (h : StInv st) :
    StInv (handleMismatchedClosingTag relaxed st).1 := by
  unfold handleMismatchedClosingTag
  split
  · split
    · rename_i hps
      exact StInv_of_fields_nonroot h (StInv_nonroot_of_paramName h hps) rfl rfl rfl
    · exact StInv_of_fields_eq rfl rfl rfl rfl h
  · split
    · split
      · rename_i hps
        exact StInv_of_fields_nonroot h (StInv_nonroot_of_paramName h hps) rfl rfl rfl
      · exact StInv_of_fields_eq rfl rfl rfl rfl h
    · exact StInv_of_cleared rfl rfl rfl rfl

theorem storeParamValue_inv (st : St) (h : StInv st) : StInv (storeParamValue st) := by
  unfold storeParamValue
  split
  · rename_i tu p htu hpn
    obtain ⟨hroot, htool, hparam⟩ := h
    refine ⟨fun hr => ?_, fun t ht => ?_, fun t p' ht => ?_⟩
    · rw [(hroot hr).1] at htu; cases htu
    · rw [(htool t ht).1] at hpn; cases hpn
    · obtain ⟨hpn', tu', htu', hname'⟩ := hparam t p' ht
      rw [htu] at htu'
      cases htu'
      exact ⟨hpn', ⟨_, rfl, hname'⟩⟩
  · exact h

theorem storeParamValue_node (st : St) :
    (storeParamValue st).currentNode = st.currentNode := by
  unfold storeParamValue; split <;> rfl

theorem storeParamValue_name (st : St) {tu : ToolUse}
    (htu : st.currentToolUse = some tu) :
    ∃ tu', (storeParamValue st).currentToolUse = some tu' ∧ tu'.name = tu.name := by
  unfold storeParamValue
  split
  · rename_i tu2 p htu2 hpn
    rw [htu] at htu2
    cases htu2
    exact ⟨_, rfl, rfl⟩
  · exact ⟨tu, htu, rfl⟩

theorem closeMatched_inv (st : St) (h : StInv st)
    (hname : nodeName st.currentNode = st.closingTagBuffer) :
    StInv (closeMatched st).1 := by
  unfold closeMatched
  split
  · rename_i hpn
    cases hnode : st.currentNode with
    | root => rw [(h.1 hnode).2.1] at hpn; cases hpn
    | tool t0 => rw [(h.2.1 t0 hnode).1] at hpn; cases hpn
    | param t0 p0 =>
      obtain ⟨hpn0, tu, htu, hnm⟩ := h.2.2 t0 p0 hnode
      obtain ⟨tu', htu', hnm'⟩ := storeParamValue_name st htu
      have hnodeA :
          (closeAscend (resetParamState (storeParamValue st))).currentNode = NodePos.tool t0 := by
        simp [closeAscend, resetParamState, storeParamValue_node, hnode, parentOf]
      refine ⟨fun hr => ?_, fun t ht => ?_, fun t p ht => ?_⟩
      · rw [hnodeA] at hr; cases hr
      · rw [hnodeA] at ht
        cases ht
        refine ⟨rfl, tu', htu', ?_⟩
        rw [hnm', hnm]
      · rw [hnodeA] at ht; cases ht
  · rename_i hpn
    split
    · rename_i tu htu
      split
      · -- the tool closes: everything is reset and we ascend to the root
        rename_i htn0
        cases hnode : st.currentNode with
        | root =>
          rw [(h.1 hnode).1] at htu; cases htu
        | tool t0 =>
          refine StInv_of_cleared rfl rfl rfl ?_
          simp [closeAscend, resetToolState, resetParamState, hnode, parentOf]
        | param t0 p0 =>
          obtain ⟨hpn0, _⟩ := h.2.2 t0 p0 hnode
          rw [hnode] at hname
          simp [nodeName] at hname
          exact absurd (by rw [hpn0, hname]) hpn
      · rename_i htn
        cases hnode : st.currentNode with
        | root =>
          rw [(h.1 hnode).1] at htu; cases htu
        | tool t0 =>
          obtain ⟨_, tu2, htu2, hnm2⟩ := h.2.1 t0 hnode
          rw [htu] at htu2
          cases htu2
          rw [hnode] at hname
          simp [nodeName] at hname
          exact absurd (by rw [hnm2, hname]) htn
        | param t0 p0 =>
          obtain ⟨hpn0, _⟩ := h.2.2 t0 p0 hnode
          rw [hnode] at hname
          simp [nodeName] at hname
          exact absurd (by rw [hpn0, hname]) hpn
    · rename_i htu
      cases hnode : st.currentNode with
      | root =>
        obtain ⟨h1, h2, h3⟩ := h.1 hnode
        refine StInv_of_cleared h1 h2 h3 ?_
        simp [closeAscend, hnode, parentOf]
      | tool t0 =>
        obtain ⟨_, tu2, htu2, _⟩ := h.2.1 t0 hnode
        rw [htu] at htu2; cases htu2
      | param t0 p0 =>
        obtain ⟨_, tu2, htu2, _⟩ := h.2.2 t0 p0 hnode
        rw [htu] at htu2; cases htu2

theorem processClosingTag_inv (relaxed : Bool) (st : St) (h : StInv st) :
    StInv (processClosingTag relaxed st).1 := by
  unfold processClosingTag
  split
  · rename_i hname
    exact closeMatched_inv st h hname
  · split
    · split
      · rename_i hps
        exact StInv_of_fields_nonroot h (StInv_nonroot_of_paramName h hps) rfl rfl rfl
      · exact StInv_of_fields_eq rfl rfl rfl rfl h
    · split
      · split
        · rename_i hps
          exact StInv_of_fields_nonroot h (StInv_nonroot_of_paramName h hps) rfl rfl rfl
        · exact StInv_of_fields_eq rfl rfl rfl rfl h
      · exact StInv_of_cleared rfl rfl rfl rfl

theorem closingTagStep_inv (relaxed : Bool) (st : St) (c : Char) (h : StInv st) :
    StInv (closingTagStep relaxed st c).1 := by
  unfold closingTagStep
  split
  · exact processClosingTag_inv relaxed st h
  · split
    · exact handleMismatchedClosingTag_inv relaxed _ (StInv_of_fields_eq rfl rfl rfl rfl h)
    · exact StInv_of_fields_eq rfl rfl rfl rfl h

theorem stepChar_inv (sch : Schema) (relaxed : Bool) (st : St) (c : Char) (h : StInv st) :
    StInv (stepChar sch relaxed st c).1 := by
  unfold stepChar
  cases st.pstate
  · exact textStep_inv st c h
  · exact tagOpeningStep_inv relaxed st c h
  · exact tagNameStep_inv sch relaxed st c h
  · exact textContentStep_inv st c h
  · exact closingTagStep_inv relaxed st c h

theorem emitToolSnapshot_inv (st : St) (h : StInv st) : StInv (emitToolSnapshot st).1 := by
  unfold emitToolSnapshot
  split <;> exact h

theorem chunkEndStore_inv (st : St) (h : StInv st) : StInv (chunkEndStore st) := by
  unfold chunkEndStore
  split
  · exact storeParamValue_inv st h
  · exact h

theorem emitPartialAtChunkEnd_inv (st : St) (h : StInv st) :
    StInv (emitPartialAtChunkEnd st).1 := by
  unfold emitPartialAtChunkEnd
  split
  · split <;> exact h
  · split
    · exact emitToolSnapshot_inv _ (chunkEndStore_inv st h)
    · exact h

theorem stepOp_inv (sch : Schema) (relaxed : Bool) (st : St) (op : Op) (h : StInv st) :
    StInv (stepOp sch relaxed st op).1 := by
  cases op
  · exact stepChar_inv sch relaxed st _ h
  · exact emitPartialAtChunkEnd_inv st h
  · exact StInv_initSt

theorem exec_inv (sch : Schema) (relaxed : Bool) (ops : List Op) :
    ∀ st : St, StInv st → StInv (exec sch relaxed st ops).1 := by
  induction ops with
  | nil => intro st h; exact h
  | cons op rest ih =>
    intro st h
    exact ih _ (stepOp_inv sch relaxed st op h)

theorem runState_inv (sch : Schema) (relaxed : Bool) (ops : List Op) :
    StInv (runState sch relaxed ops) :=
  exec_inv sch relaxed ops initSt StInv_initSt

theorem StInv_pvb_empty {st : St} (h : StInv st)
    (htu : st.currentToolUse = none) : st.paramValueBuffer = [] := by
  cases hnode : st.currentNode with
  | root => exact (h.1 hnode).2.2
  | tool t =>
    obtain ⟨_, tu, htu2, _⟩ := h.2.1 t hnode
    rw [htu] at htu2; cases htu2
  | param t p =>
    obtain ⟨_, tu, htu2, _⟩ := h.2.2 t p hnode
    rw [htu] at htu2; cases htu2

theorem setParam_setParam (m : List (Str × Str)) (k v w : Str) :
    setParam (setParam m k v) k w = setParam m k w := by
  induction m with
  | nil => simp [setParam]
  | cons pr rest ih =>
    obtain ⟨k', v'⟩ := pr
    by_cases h : k' = k
    · subst h
      simp [setParam]
    · simp [setParam, h, ih]

theorem processChunk_nil (sch : Schema) (relaxed : Bool) (st : St) :
    processChunk sch relaxed st [] = emitPartialAtChunkEnd st := by
  unfold processChunk processChars
  simp

theorem storeParamValue_pstate (st : St) : (storeParamValue st).pstate = st.pstate := by
  unfold storeParamValue; split <;> rfl

theorem storeParamValue_textBuffer (st : St) :
    (storeParamValue st).textBuffer = st.textBuffer := by
  unfold storeParamValue; split <;> rfl

theorem storeParamValue_idem (st : St) :
    storeParamValue (storeParamValue st) = storeParamValue st := by
  cases htu : st.currentToolUse with
  | none =>
    have h1 : storeParamValue st = st := by
      unfold storeParamValue; rw [htu]
    rw [h1, h1]
  | some tu =>
    cases hpn : st.currentParamName with
    | none =>
      have h1 : storeParamValue st = st := by
        unfold storeParamValue; rw [htu, hpn]
      rw [h1, h1]
    | some p =>
      have h1 : storeParamValue st = { st with currentToolUse := some { tu with params := setParam tu.params p st.paramValueBuffer } } := by
        unfold storeParamValue; rw [htu, hpn]
      rw [h1]
      unfold storeParamValue
      simp [hpn, setParam_setParam]

theorem chunkEndStore_pstate (st : St) : (chunkEndStore st).pstate = st.pstate := by
  unfold chunkEndStore
  split
  · exact storeParamValue_pstate st
  · rfl

theorem chunkEndStore_textBuffer (st : St) :
    (chunkEndStore st).textBuffer = st.textBuffer := by
  unfold chunkEndStore
  split
  · exact storeParamValue_textBuffer st
  · rfl

theorem chunkEndStore_toolUse (st : St) (tu : ToolUse)
    (htu : st.currentToolUse = some tu) :
    ∃ ps, (chunkEndStore st).currentToolUse = some { name := tu.name, params := ps } := by
  unfold chunkEndStore
  split
  · cases hpn : st.currentParamName with
    | none =>
      have h1 : storeParamValue st = st := by
        unfold storeParamValue; rw [htu, hpn]
      rw [h1, htu]
      exact ⟨tu.params, rfl⟩
    | some p =>
      have h1 : storeParamValue st = { st with currentToolUse := some { name := tu.name, params := setParam tu.params p st.paramValueBuffer } } := by
        unfold storeParamValue; rw [htu, hpn]
      rw [h1]
      exact ⟨setParam tu.params p st.paramValueBuffer, rfl⟩
  · rw [htu]
    exact ⟨tu.params, rfl⟩

theorem chunkEndStore_idem (st : St) :
    chunkEndStore (chunkEndStore st) = chunkEndStore st := by
  by_cases hsc : st.pstate = PState.textContent ∧ st.currentNode ≠ NodePos.root
  · have h1 : chunkEndStore st = storeParamValue st := by
      unfold chunkEndStore; rw [if_pos hsc]
    have hsc2 : (storeParamValue st).pstate = PState.textContent ∧
        (storeParamValue st).currentNode ≠ NodePos.root := by
      rw [storeParamValue_pstate, storeParamValue_node]; exact hsc
    have h2 : chunkEndStore (storeParamValue st) = storeParamValue (storeParamValue st) := by
      unfold chunkEndStore; rw [if_pos hsc2]
    rw [h1, h2, storeParamValue_idem]
  · have h1 : chunkEndStore st = st := by
      unfold chunkEndStore; rw [if_neg hsc]
    rw [h1, h1]

/-! ### Bisimulation for chunk-boundary equivalence (claim C1)

`emitPartialAtChunkEnd` transiently stores the in-progress parameter value
into the working params map.  The relation `Rel` captures the only possible
difference this creates between the split run and the unsplit run: the two
states agree except that the primed one may hold an extra store at the
currently open parameter key. -/

def Rel (st st' : St) : Prop :=
  st' = st ∨ ∃ p tu v, st.currentParamName = some p ∧ st.currentToolUse = some tu ∧
    st' = { st with currentToolUse := some { name := tu.name, params := setParam tu.params p v } }

theorem StInv_node_of_paramName {st : St} (h : StInv st) {p : Str}
    (hp : st.currentParamName = some p) : ∃ t, st.currentNode = NodePos.param t p := by
  cases hnode : st.currentNode with
  | root =>
    rw [(h.1 hnode).2.1] at hp; cases hp
  | tool t =>
    rw [(h.2.1 t hnode).1] at hp; cases hp
  | param t q =>
    have hq := (h.2.2 t q hnode).1
    rw [hp] at hq
    cases hq
    exact ⟨t, rfl⟩

theorem textStep_comm (st : St) (c : Char) (o : Option ToolUse) :
    textStep { st with currentToolUse := o } c =
      ({ (textStep st c).1 with currentToolUse := o }, (textStep st c).2) := by
  unfold textStep
  by_cases h1 : c = '<'
  · by_cases h2 : st.textBuffer ≠ [] ∧ jsTrim st.textBuffer ≠ []
    · simp [h1, h2]
    · simp [h1, h2]
  · by_cases h3 : allowsText st.currentNode
    · simp [h1, h3]
    · by_cases h4 : isWS c <;> simp [h1, h3, h4]

theorem textStep_keeps (st : St) (c : Char) :
    (textStep st c).1.currentToolUse = st.currentToolUse ∧
    (textStep st c).1.currentParamName = st.currentParamName := by
  unfold textStep
  repeat' split
  all_goals exact ⟨rfl, rfl⟩

theorem tagOpeningStep_comm (relaxed : Bool) (st : St) (c : Char) (o : Option ToolUse) :
    tagOpeningStep relaxed { st with currentToolUse := o } c =
      ({ (tagOpeningStep relaxed st c).1 with currentToolUse := o },
       (tagOpeningStep relaxed st c).2) := by
  unfold tagOpeningStep
  by_cases h1 : c = '/'
  · by_cases h2 : (parentOf st.currentNode).isSome
    · simp [h1, h2]
    · by_cases h3 : relaxed <;> simp [h1, h2, h3]
  · by_cases h4 : isWS c
    · by_cases h3 : relaxed <;> simp [h1, h3, h4]
    · simp [h1, h4]

theorem tagOpeningStep_keeps (relaxed : Bool) (st : St) (c : Char) :
    (tagOpeningStep relaxed st c).1.currentToolUse = st.currentToolUse ∧
    (tagOpeningStep relaxed st c).1.currentParamName = st.currentParamName := by
  unfold tagOpeningStep
  repeat' split
  all_goals exact ⟨rfl, rfl⟩

theorem textContentStep_comm (st : St) (c : Char) (o : Option ToolUse) :
    textContentStep { st with currentToolUse := o } c =
      ({ (textContentStep st c).1 with currentToolUse := o },
       (textContentStep st c).2) := by
  unfold textContentStep
  by_cases h1 : c = '<'
  · simp [h1]
  · by_cases h2 : st.currentParamName.isSome
    · simp [h1, h2]
    · by_cases h3 : allowsText st.currentNode
      · simp [h1, h2, h3]
      · by_cases h4 : isWS c <;> simp [h1, h2, h3, h4]

theorem textContentStep_keeps (st : St) (c : Char) :
    (textContentStep st c).1.currentToolUse = st.currentToolUse ∧
    (textContentStep st c).1.currentParamName = st.currentParamName := by
  unfold textContentStep
  repeat' split
  all_goals exact ⟨rfl, rfl⟩

theorem handleInvalidTag_comm_param (relaxed : Bool) (st : St) (c : Char) (t p : Str)
    (hnode : st.currentNode = NodePos.param t p) (o : Option ToolUse) :
    handleInvalidTag relaxed { st with currentToolUse := o } c =
      ({ (handleInvalidTag relaxed st c).1 with currentToolUse := o },
       (handleInvalidTag relaxed st c).2) := by
  unfold handleInvalidTag
  have hnr : ¬ (st.currentNode = NodePos.root) := by rw [hnode]; intro h; cases h
  have hat : allowsText st.currentNode = true := by rw [hnode]; rfl
  have hpar : ¬ (parentOf st.currentNode = some NodePos.root) := by
    rw [hnode]; intro h; cases h
  by_cases h3 : relaxed <;> simp [h3, hnr, hat, hpar, invalidLit]

theorem handleInvalidTag_keeps_param (relaxed : Bool) (st : St) (c : Char) (t p : Str)
    (hnode : st.currentNode = NodePos.param t p) :
    (handleInvalidTag relaxed st c).1.currentToolUse = st.currentToolUse ∧
    (handleInvalidTag relaxed st c).1.currentParamName = st.currentParamName := by
  unfold handleInvalidTag
  have hnr : ¬ (st.currentNode = NodePos.root) := by rw [hnode]; intro h; cases h
  have hat : allowsText st.currentNode = true := by rw [hnode]; rfl
  have hpar : ¬ (parentOf st.currentNode = some NodePos.root) := by
    rw [hnode]; intro h; cases h
  by_cases h3 : relaxed <;> simp [h3, hnr, hat, hpar]

theorem tagNameStep_comm_param (sch : Schema) (relaxed : Bool) (st : St) (c : Char)
    (t p : Str) (hnode : st.currentNode = NodePos.param t p) (o : Option ToolUse) :
    tagNameStep sch relaxed { st with currentToolUse := o } c =
      ({ (tagNameStep sch relaxed st c).1 with currentToolUse := o },
       (tagNameStep sch relaxed st c).2) := by
  unfold tagNameStep
  have hnone : ∀ tag, findChild sch st.currentNode tag = none := by
    intro tag; rw [hnode]; rfl
  have hbeg : ∀ seg, anyChildBegins sch st.currentNode seg = false := by
    intro seg; rw [hnode]; rfl
  by_cases h1 : c ≠ '>' ∧ ¬ isWS c = true
  · rw [if_pos h1, if_pos h1]
    have hcomm := handleInvalidTag_comm_param relaxed { st with tagBuffer := st.tagBuffer ++ [c] } c t p hnode o
    simp [hbeg, hcomm]
  · rw [if_neg h1, if_neg h1]
    have hcomm := handleInvalidTag_comm_param relaxed st c t p hnode o
    simp [hnone, hcomm]

theorem tagNameStep_keeps_param (sch : Schema) (relaxed : Bool) (st : St) (c : Char)
    (t p : Str) (hnode : st.currentNode = NodePos.param t p) :
    (tagNameStep sch relaxed st c).1.currentToolUse = st.currentToolUse ∧
    (tagNameStep sch relaxed st c).1.currentParamName = st.currentParamName := by
  unfold tagNameStep
  have hnone : ∀ tag, findChild sch st.currentNode tag = none := by
    intro tag; rw [hnode]; rfl
  have hbeg : ∀ seg, anyChildBegins sch st.currentNode seg = false := by
    intro seg; rw [hnode]; rfl
  by_cases h1 : c ≠ '>' ∧ ¬ isWS c = true
  · rw [if_pos h1]
    have hk := handleInvalidTag_keeps_param relaxed { st with tagBuffer := st.tagBuffer ++ [c] } c t p hnode
    simp [hbeg, hk.1, hk.2]
  · rw [if_neg h1]
    have hk := handleInvalidTag_keeps_param relaxed st c t p hnode
    simp [hnone, hk.1, hk.2]

theorem handleMismatchedClosingTag_comm (relaxed : Bool) (st : St)
    (hat : allowsText st.currentNode = true) (o : Option ToolUse) :
    handleMismatchedClosingTag relaxed { st with currentToolUse := o } =
      ({ (handleMismatchedClosingTag relaxed st).1 with currentToolUse := o },
       (handleMismatchedClosingTag relaxed st).2) := by
  unfold handleMismatchedClosingTag
  by_cases h3 : relaxed <;> by_cases h2 : st.currentParamName.isSome <;>
    simp [h3, h2, hat]

theorem handleMismatchedClosingTag_keeps (relaxed : Bool) (st : St)
    (hat : allowsText st.currentNode = true) :
    (handleMismatchedClosingTag relaxed st).1.currentToolUse = st.currentToolUse ∧
    (handleMismatchedClosingTag relaxed st).1.currentParamName = st.currentParamName := by
  unfold handleMismatchedClosingTag
  by_cases h3 : relaxed <;> by_cases h2 : st.currentParamName.isSome <;>
    simp [h3, h2, hat]

theorem Rel_diff {A : St} {p : Str} {tu : ToolUse} (v : Str)
    (hpn : A.currentParamName = some p) (htu : A.currentToolUse = some tu) :
    Rel A { A with currentToolUse := some { name := tu.name, params := setParam tu.params p v } } :=
  Or.inr ⟨p, tu, v, hpn, htu, rfl⟩

theorem storeParamValue_equalize (st : St) (p : Str) (tu : ToolUse) (v : Str)
    (hpn : st.currentParamName = some p) (htu : st.currentToolUse = some tu) :
    storeParamValue { st with currentToolUse := some { name := tu.name, params := setParam tu.params p v } } =
      storeParamValue st := by
  have ha : storeParamValue st = { st with currentToolUse := some { name := tu.name, params := setParam tu.params p st.paramValueBuffer } } := by
    unfold storeParamValue; rw [htu, hpn]
  have hb : storeParamValue { st with currentToolUse := some { name := tu.name, params := setParam tu.params p v } } =
      { st with currentToolUse := some { name := tu.name, params := setParam (setParam tu.params p v) p st.paramValueBuffer } } := by
    unfold storeParamValue
    simp [hpn]
  rw [ha, hb, setParam_setParam]

theorem processClosingTag_comm_noMatch (r : Bool) (st : St)
    (htag : ¬ (nodeName st.currentNode = st.closingTagBuffer))
    (hat : allowsText st.currentNode = true) (o : Option ToolUse) :
    processClosingTag r { st with currentToolUse := o } =
      ({ (processClosingTag r st).1 with currentToolUse := o }, (processClosingTag r st).2) := by
  unfold processClosingTag
  by_cases h3 : r <;> by_cases h2 : st.currentParamName.isSome <;>
    simp [htag, h3, h2, hat]

theorem processClosingTag_keeps_noMatch (r : Bool) (st : St)
    (htag : ¬ (nodeName st.currentNode = st.closingTagBuffer))
    (hat : allowsText st.currentNode = true) :
    (processClosingTag r st).1.currentToolUse = st.currentToolUse ∧
    (processClosingTag r st).1.currentParamName = st.currentParamName := by
  unfold processClosingTag
  by_cases h3 : r <;> by_cases h2 : st.currentParamName.isSome <;>
    simp [htag, h3, h2, hat]

theorem processClosingTag_bisim (r : Bool) (st : St) (t p : Str) (tu : ToolUse) (v : Str)
    (hnode : st.currentNode = NodePos.param t p)
    (hpn : st.currentParamName = some p)
    (htu : st.currentToolUse = some tu) :
    (processClosingTag r { st with currentToolUse := some { name := tu.name, params := setParam tu.params p v } }).2 =
      (processClosingTag r st).2 ∧
    Rel (processClosingTag r st).1
        (processClosingTag r { st with currentToolUse := some { name := tu.name, params := setParam tu.params p v } }).1 := by
  by_cases htag : nodeName st.currentNode = st.closingTagBuffer
  · have hctb : p = st.closingTagBuffer := by
      rw [hnode] at htag; simpa [nodeName] using htag
    have h1 : processClosingTag r st = closeMatched st := by
      unfold processClosingTag; rw [if_pos htag]
    have h2 : processClosingTag r { st with currentToolUse := some { name := tu.name, params := setParam tu.params p v } } =
        closeMatched { st with currentToolUse := some { name := tu.name, params := setParam tu.params p v } } := by
      unfold processClosingTag
      rw [if_pos (show nodeName ({ st with currentToolUse := some { name := tu.name, params := setParam tu.params p v } } : St).currentNode = ({ st with currentToolUse := some { name := tu.name, params := setParam tu.params p v } } : St).closingTagBuffer from htag)]
    have h3 : closeMatched st = (closeAscend (resetParamState (storeParamValue st)), []) := by
      unfold closeMatched
      rw [if_pos (show st.currentParamName = some st.closingTagBuffer by rw [← hctb]; exact hpn)]
    have h4 : closeMatched { st with currentToolUse := some { name := tu.name, params := setParam tu.params p v } } =
        (closeAscend (resetParamState (storeParamValue { st with currentToolUse := some { name := tu.name, params := setParam tu.params p v } })), []) := by
      unfold closeMatched
      rw [if_pos (show ({ st with currentToolUse := some { name := tu.name, params := setParam tu.params p v } } : St).currentParamName = some ({ st with currentToolUse := some { name := tu.name, params := setParam tu.params p v } } : St).closingTagBuffer from (hctb ▸ hpn))]
    rw [h1, h2, h3, h4, storeParamValue_equalize st p tu v hpn htu]
    exact ⟨rfl, Or.inl rfl⟩
  · have hat : allowsText st.currentNode = true := by rw [hnode]; rfl
    have hcomm := processClosingTag_comm_noMatch r st htag hat
      (some { name := tu.name, params := setParam tu.params p v })
    have hk := processClosingTag_keeps_noMatch r st htag hat
    rw [hcomm]
    exact ⟨rfl, Rel_diff v (hk.2.trans hpn) (hk.1.trans htu)⟩

theorem closingTagStep_comm_param (r : Bool) (st : St) (c : Char) (t p : Str)
    (hnode : st.currentNode = NodePos.param t p) (hne : ¬ c = '>') (o : Option ToolUse) :
    closingTagStep r { st with currentToolUse := o } c =
      ({ (closingTagStep r st c).1 with currentToolUse := o }, (closingTagStep r st c).2) := by
  unfold closingTagStep
  have hat : allowsText st.currentNode = true := by rw [hnode]; rfl
  have hcm := handleMismatchedClosingTag_comm r
    { st with closingTagBuffer := st.closingTagBuffer ++ [c] }
    (show allowsText ({ st with closingTagBuffer := st.closingTagBuffer ++ [c] } : St).currentNode = true from hat) o
  by_cases h2 : List.take (st.closingTagBuffer.length + 1) (nodeName st.currentNode) =
      st.closingTagBuffer ++ [c]
  · simp [hne, h2]
  · simp [hne, h2, hcm]

theorem closingTagStep_keeps_param (r : Bool) (st : St) (c : Char) (t p : Str)
    (hnode : st.currentNode = NodePos.param t p) (hne : ¬ c = '>') :
    (closingTagStep r st c).1.currentToolUse = st.currentToolUse ∧
    (closingTagStep r st c).1.currentParamName = st.currentParamName := by
  unfold closingTagStep
  have hat : allowsText st.currentNode = true := by rw [hnode]; rfl
  have hk := handleMismatchedClosingTag_keeps r
    { st with closingTagBuffer := st.closingTagBuffer ++ [c] }
    (show allowsText ({ st with closingTagBuffer := st.closingTagBuffer ++ [c] } : St).currentNode = true from hat)
  by_cases h2 : List.take (st.closingTagBuffer.length + 1) (nodeName st.currentNode) =
      st.closingTagBuffer ++ [c]
  · simp [hne, h2]
  · simp [hne, h2, hk.1, hk.2]

theorem closingTagStep_bisim (r : Bool) (st : St) (c : Char) (t p : Str) (tu : ToolUse) (v : Str)
    (hnode : st.currentNode = NodePos.param t p)
    (hpn : st.currentParamName = some p)
    (htu : st.currentToolUse = some tu) :
    (closingTagStep r { st with currentToolUse := some { name := tu.name, params := setParam tu.params p v } } c).2 =
      (closingTagStep r st c).2 ∧
    Rel (closingTagStep r st c).1
        (closingTagStep r { st with currentToolUse := some { name := tu.name, params := setParam tu.params p v } } c).1 := by
  by_cases h1 : c = '>'
  · have ea : closingTagStep r st c = processClosingTag r st := by
      unfold closingTagStep; rw [if_pos h1]
    have eb : closingTagStep r { st with currentToolUse := some { name := tu.name, params := setParam tu.params p v } } c =
        processClosingTag r { st with currentToolUse := some { name := tu.name, params := setParam tu.params p v } } := by
      unfold closingTagStep; rw [if_pos h1]
    rw [ea, eb]
    exact processClosingTag_bisim r st t p tu v hnode hpn htu
  · have hco := closingTagStep_comm_param r st c t p hnode h1
      (some { name := tu.name, params := setParam tu.params p v })
    have hk := closingTagStep_keeps_param r st c t p hnode h1
    rw [hco]
    exact ⟨rfl, Rel_diff v (hk.2.trans hpn) (hk.1.trans htu)⟩

theorem stepChar_text (sch : Schema) (r : Bool) (st : St) (c : Char)
    (h : st.pstate = PState.text) : stepChar sch r st c = textStep st c := by
  unfold stepChar; rw [h]

theorem stepChar_tagOpening (sch : Schema) (r : Bool) (st : St) (c : Char)
    (h : st.pstate = PState.tagOpening) : stepChar sch r st c = tagOpeningStep r st c := by
  unfold stepChar; rw [h]

theorem stepChar_tagName (sch : Schema) (r : Bool) (st : St) (c : Char)
    (h : st.pstate = PState.tagName) : stepChar sch r st c = tagNameStep sch r st c := by
  unfold stepChar; rw [h]

theorem stepChar_textContent (sch : Schema) (r : Bool) (st : St) (c : Char)
    (h : st.pstate = PState.textContent) : stepChar sch r st c = textContentStep st c := by
  unfold stepChar; rw [h]

theorem stepChar_closingTag (sch : Schema) (r : Bool) (st : St) (c : Char)
    (h : st.pstate = PState.closingTag) : stepChar sch r st c = closingTagStep r st c := by
  unfold stepChar; rw [h]

theorem stepChar_bisim (sch : Schema) (r : Bool) (st st' : St) (c : Char)
    (hI : StInv st) (hR : Rel st st') :
    (stepChar sch r st' c).2 = (stepChar sch r st c).2 ∧
    Rel (stepChar sch r st c).1 (stepChar sch r st' c).1 := by
  rcases hR with rfl | ⟨p, tu, v, hpn, htu, rfl⟩
  · exact ⟨rfl, Or.inl rfl⟩
  · obtain ⟨t, hnode⟩ := StInv_node_of_paramName hI hpn
    by_cases h1 : st.pstate = PState.text
    · rw [stepChar_text sch r st c h1,
          stepChar_text sch r { st with currentToolUse := some { name := tu.name, params := setParam tu.params p v } } c
            (show ({ st with currentToolUse := some { name := tu.name, params := setParam tu.params p v } } : St).pstate = PState.text from h1)]
      have hco := textStep_comm st c (some { name := tu.name, params := setParam tu.params p v })
      have hk := textStep_keeps st c
      rw [hco]
      exact ⟨rfl, Rel_diff v (hk.2.trans hpn) (hk.1.trans htu)⟩
    · by_cases h2 : st.pstate = PState.tagOpening
      · rw [stepChar_tagOpening sch r st c h2,
            stepChar_tagOpening sch r { st with currentToolUse := some { name := tu.name, params := setParam tu.params p v } } c
              (show ({ st with currentToolUse := some { name := tu.name, params := setParam tu.params p v } } : St).pstate = PState.tagOpening from h2)]
        have hco := tagOpeningStep_comm r st c (some { name := tu.name, params := setParam tu.params p v })
        have hk := tagOpeningStep_keeps r st c
        rw [hco]
        exact ⟨rfl, Rel_diff v (hk.2.trans hpn) (hk.1.trans htu)⟩
      · by_cases h3 : st.pstate = PState.tagName
        · rw [stepChar_tagName sch r st c h3,
              stepChar_tagName sch r { st with currentToolUse := some { name := tu.name, params := setParam tu.params p v } } c
                (show ({ st with currentToolUse := some { name := tu.name, params := setParam tu.params p v } } : St).pstate = PState.tagName from h3)]
          have hco := tagNameStep_comm_param sch r st c t p hnode (some { name := tu.name, params := setParam tu.params p v })
          have hk := tagNameStep_keeps_param sch r st c t p hnode
          rw [hco]
          exact ⟨rfl, Rel_diff v (hk.2.trans hpn) (hk.1.trans htu)⟩
        · by_cases h4 : st.pstate = PState.textContent
          · rw [stepChar_textContent sch r st c h4,
                stepChar_textContent sch r { st with currentToolUse := some { name := tu.name, params := setParam tu.params p v } } c
                  (show ({ st with currentToolUse := some { name := tu.name, params := setParam tu.params p v } } : St).pstate = PState.textContent from h4)]
            have hco := textContentStep_comm st c (some { name := tu.name, params := setParam tu.params p v })
            have hk := textContentStep_keeps st c
            rw [hco]
            exact ⟨rfl, Rel_diff v (hk.2.trans hpn) (hk.1.trans htu)⟩
          · have h5 : st.pstate = PState.closingTag := by
              cases hq : st.pstate <;> simp_all
            rw [stepChar_closingTag sch r st c h5,
                stepChar_closingTag sch r { st with currentToolUse := some { name := tu.name, params := setParam tu.params p v } } c
                  (show ({ st with currentToolUse := some { name := tu.name, params := setParam tu.params p v } } : St).pstate = PState.closingTag from h5)]
            exact closingTagStep_bisim r st c t p tu v hnode hpn htu

theorem finalBlocks_append (a b : List Ev) :
    finalBlocks (a ++ b) = finalBlocks a ++ finalBlocks b := by
  unfold finalBlocks
  exact List.filter_append a b

theorem cut_start (st : St) :
    finalBlocks (emitPartialAtChunkEnd st).2 = [] ∧ Rel st (emitPartialAtChunkEnd st).1 := by
  by_cases h1 : st.pstate = PState.text ∧ st.textBuffer ≠ []
  · have e1 : emitPartialAtChunkEnd st =
        (st, if jsTrim st.textBuffer ≠ [] then [Ev.blk (Block.text (jsTrim st.textBuffer) true)] else []) := by
      unfold emitPartialAtChunkEnd
      rw [if_pos h1]
      by_cases h2 : jsTrim st.textBuffer ≠ [] <;> simp [h2]
    rw [e1]
    refine ⟨?_, Or.inl rfl⟩
    by_cases h2 : jsTrim st.textBuffer ≠ [] <;> simp [h2, finalBlocks, isFinalBlock]
  · cases htu : st.currentToolUse with
    | none =>
      have e1 : emitPartialAtChunkEnd st = (st, []) := by
        unfold emitPartialAtChunkEnd
        rw [if_neg h1, htu]
      rw [e1]
      exact ⟨rfl, Or.inl rfl⟩
    | some tu =>
      obtain ⟨ps, hps⟩ := chunkEndStore_toolUse st tu htu
      have e1 : emitPartialAtChunkEnd st =
          (chunkEndStore st, [Ev.blk (Block.toolUse tu.name ps true)]) := by
        unfold emitPartialAtChunkEnd
        rw [if_neg h1, htu]
        unfold emitToolSnapshot
        rw [hps]
      rw [e1]
      refine ⟨by simp [finalBlocks, isFinalBlock], ?_⟩
      unfold chunkEndStore
      by_cases hsc : st.pstate = PState.textContent ∧ st.currentNode ≠ NodePos.root
      · rw [if_pos hsc]
        cases hpn : st.currentParamName with
        | none =>
          have hst : storeParamValue st = st := by
            unfold storeParamValue; rw [htu, hpn]
          rw [hst]
          exact Or.inl rfl
        | some p =>
          have hst : storeParamValue st = { st with currentToolUse := some { name := tu.name, params := setParam tu.params p st.paramValueBuffer } } := by
            unfold storeParamValue; rw [htu, hpn]
          rw [hst]
          exact Or.inr ⟨p, tu, st.paramValueBuffer, hpn, htu, rfl⟩
      · rw [if_neg hsc]
        exact Or.inl rfl

theorem cut_bisim (st st' : St) (hR : Rel st st') :
    finalBlocks (emitPartialAtChunkEnd st').2 = finalBlocks (emitPartialAtChunkEnd st).2 ∧
    Rel (emitPartialAtChunkEnd st).1 (emitPartialAtChunkEnd st').1 := by
  rcases hR with rfl | ⟨p, tu, v, hpn, htu, rfl⟩
  · exact ⟨rfl, Or.inl rfl⟩
  · by_cases h1 : st.pstate = PState.text ∧ st.textBuffer ≠ []
    · have e1 : emitPartialAtChunkEnd st =
          (st, if jsTrim st.textBuffer ≠ [] then [Ev.blk (Block.text (jsTrim st.textBuffer) true)] else []) := by
        unfold emitPartialAtChunkEnd
        rw [if_pos h1]
        by_cases h2 : jsTrim st.textBuffer ≠ [] <;> simp [h2]
      have e2 : emitPartialAtChunkEnd { st with currentToolUse := some { name := tu.name, params := setParam tu.params p v } } =
          ({ st with currentToolUse := some { name := tu.name, params := setParam tu.params p v } },
           if jsTrim st.textBuffer ≠ [] then [Ev.blk (Block.text (jsTrim st.textBuffer) true)] else []) := by
        unfold emitPartialAtChunkEnd
        rw [if_pos (show ({ st with currentToolUse := some { name := tu.name, params := setParam tu.params p v } } : St).pstate = PState.text ∧ ({ st with currentToolUse := some { name := tu.name, params := setParam tu.params p v } } : St).textBuffer ≠ [] from h1)]
        by_cases h2 : jsTrim st.textBuffer ≠ [] <;> simp [h2]
      rw [e1, e2]
      exact ⟨rfl, Or.inr ⟨p, tu, v, hpn, htu, rfl⟩⟩
    · by_cases hsc : st.pstate = PState.textContent ∧ st.currentNode ≠ NodePos.root
      · have hce : chunkEndStore { st with currentToolUse := some { name := tu.name, params := setParam tu.params p v } } = chunkEndStore st := by
          unfold chunkEndStore
          rw [if_pos (show ({ st with currentToolUse := some { name := tu.name, params := setParam tu.params p v } } : St).pstate = PState.textContent ∧ ({ st with currentToolUse := some { name := tu.name, params := setParam tu.params p v } } : St).currentNode ≠ NodePos.root from hsc), if_pos hsc]
          exact storeParamValue_equalize st p tu v hpn htu
        have e1 : emitPartialAtChunkEnd st = emitToolSnapshot (chunkEndStore st) := by
          unfold emitPartialAtChunkEnd
          rw [if_neg h1, htu]
        have e2 : emitPartialAtChunkEnd { st with currentToolUse := some { name := tu.name, params := setParam tu.params p v } } = emitToolSnapshot (chunkEndStore { st with currentToolUse := some { name := tu.name, params := setParam tu.params p v } }) := by
          unfold emitPartialAtChunkEnd
          rw [if_neg (show ¬ (({ st with currentToolUse := some { name := tu.name, params := setParam tu.params p v } } : St).pstate = PState.text ∧ ({ st with currentToolUse := some { name := tu.name, params := setParam tu.params p v } } : St).textBuffer ≠ []) from h1)]
        rw [e1, e2, hce]
        exact ⟨rfl, Or.inl rfl⟩
      · have hce1 : chunkEndStore st = st := by
          unfold chunkEndStore; rw [if_neg hsc]
        have hce2 : chunkEndStore { st with currentToolUse := some { name := tu.name, params := setParam tu.params p v } } = { st with currentToolUse := some { name := tu.name, params := setParam tu.params p v } } := by
          unfold chunkEndStore
          rw [if_neg (show ¬ (({ st with currentToolUse := some { name := tu.name, params := setParam tu.params p v } } : St).pstate = PState.textContent ∧ ({ st with currentToolUse := some { name := tu.name, params := setParam tu.params p v } } : St).currentNode ≠ NodePos.root) from hsc)]
        have e1 : emitPartialAtChunkEnd st = (st, [Ev.blk (Block.toolUse tu.name tu.params true)]) := by
          unfold emitPartialAtChunkEnd
          rw [if_neg h1, htu]
          rw [hce1]
          unfold emitToolSnapshot
          rw [htu]
        have e2 : emitPartialAtChunkEnd { st with currentToolUse := some { name := tu.name, params := setParam tu.params p v } } =
            ({ st with currentToolUse := some { name := tu.name, params := setParam tu.params p v } },
             [Ev.blk (Block.toolUse tu.name (setParam tu.params p v) true)]) := by
          unfold emitPartialAtChunkEnd
          rw [if_neg (show ¬ (({ st with currentToolUse := some { name := tu.name, params := setParam tu.params p v } } : St).pstate = PState.text ∧ ({ st with currentToolUse := some { name := tu.name, params := setParam tu.params p v } } : St).textBuffer ≠ []) from h1)]
          rw [hce2]
          rfl
        rw [e1, e2]
        refine ⟨by simp [finalBlocks, isFinalBlock], Or.inr ⟨p, tu, v, hpn, htu, rfl⟩⟩

theorem fin_bisim (st st' : St) (hR : Rel st st') :
    (finalizeStep st').2 = (finalizeStep st).2 ∧
    Rel (finalizeStep st).1 (finalizeStep st').1 := by
  rcases hR with rfl | ⟨p, tu, v, hpn, htu, rfl⟩
  · exact ⟨rfl, Or.inl rfl⟩
  · exact ⟨rfl, Or.inl rfl⟩

theorem stepOp_bisim (sch : Schema) (r : Bool) (st st' : St) (op : Op)
    (hI : StInv st) (hR : Rel st st') :
    finalBlocks (stepOp sch r st' op).2 = finalBlocks (stepOp sch r st op).2 ∧
    Rel (stepOp sch r st op).1 (stepOp sch r st' op).1 := by
  cases op with
  | pc c =>
    have h := stepChar_bisim sch r st st' c hI hR
    refine ⟨?_, h.2⟩
    show finalBlocks (stepChar sch r st' c).2 = finalBlocks (stepChar sch r st c).2
    rw [h.1]
  | cut => exact cut_bisim st st' hR
  | fin =>
    have h := fin_bisim st st' hR
    refine ⟨?_, h.2⟩
    show finalBlocks (finalizeStep st').2 = finalBlocks (finalizeStep st).2
    rw [h.1]

theorem exec_bisim (sch : Schema) (r : Bool) (ops : List Op) :
    ∀ st st' : St, StInv st → Rel st st' →
      finalBlocks (exec sch r st' ops).2 = finalBlocks (exec sch r st ops).2 ∧
      Rel (exec sch r st ops).1 (exec sch r st' ops).1 := by
  induction ops with
  | nil => intro st st' _ hR; exact ⟨rfl, hR⟩
  | cons op rest ih =>
    intro st st' hI hR
    have h1 := stepOp_bisim sch r st st' op hI hR
    have h2 := ih _ _ (stepOp_inv sch r st op hI) h1.2
    refine ⟨?_, ?_⟩
    · simp only [exec]
      rw [finalBlocks_append, finalBlocks_append, h1.1, h2.1]
    · simp only [exec]
      exact h2.2

/-! ### Claim theorems -/

/-- Claim C5 (amended): whenever no tool-use is in flight the parameter value
buffer is empty, so at most one of `text_buffer` and `param_value_buffer` is
non-empty; while a tool-use is in flight error recovery can leave both
buffers non-empty at once. -/
theorem c5_buffer_exclusivity (sch : Schema) (relaxed : Bool) (ops : List Op) :
    (runState sch relaxed ops).currentToolUse ≠ none ∨
    ((runState sch relaxed ops).paramValueBuffer = [] ∧
     ¬((runState sch relaxed ops).textBuffer ≠ [] ∧
       (runState sch relaxed ops).paramValueBuffer ≠ [])) := by
  by_cases htu : (runState sch relaxed ops).currentToolUse = none
  · right
    have hp := StInv_pvb_empty (runState_inv sch relaxed ops) htu
    exact ⟨hp, fun hcon => hcon.2 hp⟩
  · left; exact htu

/-- Claim C5, counterexample to the claim as stated: after the single chunk
`"<read_file><xyz"` in strict mode (a chunk boundary, hence a point between
two consecutive characters), both `text_buffer` (`"z"`) and
`param_value_buffer` (`"<xyy"`) are non-empty. -/
theorem c5_exclusivity_claim_false :
    (runState sampleSchema false (chunkOps "<read_file><xyz".toList)).textBuffer ≠ [] ∧
    (runState sampleSchema false (chunkOps "<read_file><xyz".toList)).paramValueBuffer ≠ [] := by
  decide

/-- Claim C10: if the stream ends while an opening tag is being read
(`TagOpening` or `TagName` state), `finalize()` emits nothing at all — the
buffered `<` and partial tag name are discarded (the post-finalize buffers
are empty), in both modes. -/
theorem c10_open_tag_dropped (sch : Schema) (relaxed : Bool) (ops : List Op)
    (h : (runState sch relaxed ops).pstate = PState.tagOpening ∨
         (runState sch relaxed ops).pstate = PState.tagName) :
    (finalizeStep (runState sch relaxed ops)).2 = [] ∧
    runEvents sch relaxed (ops ++ [Op.fin]) = runEvents sch relaxed ops ∧
    (finalizeStep (runState sch relaxed ops)).1.tagBuffer = [] ∧
    (finalizeStep (runState sch relaxed ops)).1.textBuffer = [] := by
  have hevs : (finalizeStep (runState sch relaxed ops)).2 = [] := by
    unfold finalizeStep
    rcases h with h | h <;> simp [h]
  refine ⟨hevs, ?_, rfl, rfl⟩
  unfold runEvents
  rw [exec_append]
  simp only [exec, stepOp, List.append_nil]
  have : (finalizeStep (exec sch relaxed initSt ops).1).2 = [] := hevs
  rw [this]
  simp

/-- Witness for claim C10 at a concrete input: `"ab<re"` ends in the middle
of a tag name. -/
theorem c10_open_tag_dropped_witness :
    ((runState sampleSchema false (chunkOps "ab<re".toList)).pstate = PState.tagOpening ∨
     (runState sampleSchema false (chunkOps "ab<re".toList)).pstate = PState.tagName) ∧
    ((finalizeStep (runState sampleSchema false (chunkOps "ab<re".toList))).2 = [] ∧
     runEvents sampleSchema false (chunkOps "ab<re".toList ++ [Op.fin]) =
       runEvents sampleSchema false (chunkOps "ab<re".toList) ∧
     (finalizeStep (runState sampleSchema false (chunkOps "ab<re".toList))).1.tagBuffer = [] ∧
     (finalizeStep (runState sampleSchema false (chunkOps "ab<re".toList))).1.textBuffer = []) :=
  ⟨Or.inr (by decide),
   c10_open_tag_dropped sampleSchema false (chunkOps "ab<re".toList) (Or.inr (by decide))⟩

/-- Claim C3: evaluation of the code at the failing input
`"<read_file><xy>z</read_file>"` (strict mode).  The parser emits the error
`Invalid param name: xy for tool read_file`, yet the characters `xy` that
triggered it appear in no emitted block: they are appended to
`param_value_buffer` with no parameter open and later discarded. -/
theorem c3_invalid_param_chars_lost :
    ((runEvents sampleSchema false (chunkOps "<read_file><xy>z</read_file>".toList ++ [Op.fin])).any
       (fun e => decide (e = Ev.err ("Invalid param name: ".toList ++ "xy".toList ++
                                     " for tool ".toList ++ "read_file".toList)))) = true ∧
    ((runEvents sampleSchema false (chunkOps "<read_file><xy>z</read_file>".toList ++ [Op.fin])).all
       (fun e => match e with
         | Ev.blk (Block.text c _) => !(hasSub c "xy".toList)
         | Ev.blk (Block.toolUse _ ps _) => ps.all (fun pr => !(hasSub pr.2 "xy".toList))
         | _ => true)) = true := by
  decide

/-- Claim C8: every emitted Text block (partial or final) has content that is
non-empty and equal to its own trim; the parser never emits a text block whose
content is empty or whitespace-only, for every input and both modes. -/
theorem c8_text_blocks_trimmed (sch : Schema) (relaxed : Bool) (ops : List Op) :
    ((runEvents sch relaxed ops).all textOk) = true :=
  exec_all_textOk sch relaxed ops initSt

/-- Claim C6: after `finalize()`, the parser state equals the
post-construction state, so feeding any subsequent operation sequence
produces the same events as feeding it to a freshly constructed parser. -/
theorem c6_parser_reusability (sch : Schema) (relaxed : Bool) (ops ops2 : List Op) :
    runState sch relaxed (ops ++ [Op.fin]) = initSt ∧
    (exec sch relaxed (runState sch relaxed (ops ++ [Op.fin])) ops2).2 =
      runEvents sch relaxed ops2 := by
  have h1 : runState sch relaxed (ops ++ [Op.fin]) = initSt := by
    unfold runState
    rw [exec_append]
    simp [exec, stepOp, finalizeStep]
  exact ⟨h1, by rw [h1]; rfl⟩

/-- Claim C4 (amended): `finalize()` emits the pending trailing text, trimmed,
as a `partial = false` block if and only if the parser is in `Text` state and
the trimmed text is non-empty; and `finalize` never emits a `ToolUse` block. -/
theorem c4_finalize_behavior (sch : Schema) (relaxed : Bool) (ops : List Op) :
    (finalizeStep (runState sch relaxed ops)).2 =
      (if (runState sch relaxed ops).pstate = .text ∧
          jsTrim (runState sch relaxed ops).textBuffer ≠ []
       then [Ev.blk (.text (jsTrim (runState sch relaxed ops).textBuffer) false)]
       else []) ∧
    ((finalizeStep (runState sch relaxed ops)).2.filter isToolBlock) = [] := by
  generalize runState sch relaxed ops = st
  constructor
  · unfold finalizeStep
    by_cases h1 : st.pstate = PState.text
    · by_cases h2 : jsTrim st.textBuffer ≠ []
      · have h3 : st.textBuffer ≠ [] := jsTrim_ne_nil_of_ne h2
        simp [h1, h2, h3]
      · simp only [not_not] at h2
        simp [h1, h2]
    · simp [h1]
  · unfold finalizeStep
    split <;> simp [isToolBlock]

/-- Claim C4, counterexample to the claim as stated: after feeding
`"<read_file>x"` the trimmed text buffer is the non-empty `"x"`, yet
`finalize()` emits nothing (the parser is not in `Text` state); and after
`"<read_file></read_file><read_file>< x"` the stream ends with an unclosed
tool-use while the last `tool_use` event of the whole run is
`partial = false`, not `partial = true`. -/
theorem c4_finalize_claim_false :
    (jsTrim (runState sampleSchema false (chunkOps "<read_file>x".toList)).textBuffer ≠ [] ∧
     (finalizeStep (runState sampleSchema false (chunkOps "<read_file>x".toList))).2 = []) ∧
    ((runState sampleSchema false
        (chunkOps "<read_file></read_file><read_file>< x".toList)).currentToolUse ≠ none ∧
     ((runEvents sampleSchema false
         (chunkOps "<read_file></read_file><read_file>< x".toList ++ [Op.fin])).filter
        isToolBlock).getLast? =
       some (Ev.blk (.toolUse "read_file".toList [] false))) := by
  decide

/-- For an invalid parameter name inside a tool, relaxed mode suppresses the
error but its recovery differs from strict mode: relaxed mode appends the
literal to `text_buffer`, resets the tool state and returns to `Text`,
whereas strict mode emits `Invalid param name: …`, appends the literal to
`param_value_buffer` (duplicating the last character) and stays in
`TextContent` with the tool-use alive.  (Helper for the C2 theorem below.) -/
theorem c2_relaxed_invalid_param_divergence (sch : Schema) (st : St) (c : Char) (t : Str)
    (hp : st.pstate = PState.tagName)
    (hn : st.currentNode = NodePos.tool t)
    (hc : c ≠ '>') (hw : isWS c = false)
    (hpre : anyChildBegins sch (NodePos.tool t) (st.tagBuffer ++ [c]) = false) :
    (stepChar sch true st c).2 = [] ∧
    (stepChar sch true st c).1.currentToolUse = none ∧
    (stepChar sch true st c).1.paramValueBuffer = [] ∧
    (stepChar sch true st c).1.textBuffer = st.textBuffer ++ ('<' :: (st.tagBuffer ++ [c] ++ [c])) ∧
    (stepChar sch true st c).1.pstate = PState.text ∧
    (stepChar sch true st c).1.currentNode = NodePos.root ∧
    (stepChar sch false st c).2 =
      [Ev.err ("Invalid param name: ".toList ++ (st.tagBuffer ++ [c]) ++ " for tool ".toList ++ t)] ∧
    (stepChar sch false st c).1.paramValueBuffer =
      st.paramValueBuffer ++ ('<' :: (st.tagBuffer ++ [c] ++ [c])) ∧
    (stepChar sch false st c).1.currentToolUse = st.currentToolUse ∧
    (stepChar sch false st c).1.pstate = PState.textContent := by
  have hcond : (c ≠ '>' ∧ ¬ (isWS c = true)) := ⟨hc, by simp [hw]⟩
  have hstep : ∀ r : Bool, stepChar sch r st c =
      handleInvalidTag r { st with tagBuffer := st.tagBuffer ++ [c] } c := by
    intro r
    unfold stepChar
    rw [hp]
    unfold tagNameStep
    rw [if_pos hcond, hn]
    rw [if_pos (by simp [hpre])]
    rw [hp]
  have hrel : stepChar sch true st c =
      (invalidFallback { st with tagBuffer := st.tagBuffer ++ [c] } c, []) := by
    rw [hstep true]
    unfold handleInvalidTag
    simp [hn, allowsText]
  have hstr : stepChar sch false st c =
      ({ st with tagBuffer := [],
                 paramValueBuffer := st.paramValueBuffer ++ invalidLit { st with tagBuffer := st.tagBuffer ++ [c] } c,
                 pstate := PState.textContent },
       [Ev.err ("Invalid param name: ".toList ++ (st.tagBuffer ++ [c]) ++ " for tool ".toList ++ t)]) := by
    rw [hstep false]
    unfold handleInvalidTag
    simp [hn, parentOf, nodeName]
  refine ⟨?_, ?_, ?_, ?_, ?_, ?_, ?_, ?_, ?_, ?_⟩ <;>
    simp [hrel, hstr, invalidFallback, resetToolState, resetParamState, invalidLit]

/-- A concrete tag-name state for the C2 analysis: the parser has read
`"<read_file><x"`. -/
def c2state : St := (processChars sampleSchema false initSt "<read_file><x".toList).1

/-- The invalid-parameter divergence at a concrete input: in `c2state` the
next character `y` makes `xy` an invalid parameter name for `read_file`. -/
theorem c2_relaxed_invalid_param_divergence_witness :
    (c2state.pstate = PState.tagName ∧
     c2state.currentNode = NodePos.tool "read_file".toList ∧
     'y' ≠ '>' ∧ isWS 'y' = false ∧
     anyChildBegins sampleSchema (NodePos.tool "read_file".toList) (c2state.tagBuffer ++ ['y']) = false) ∧
    ((stepChar sampleSchema true c2state 'y').2 = [] ∧
     (stepChar sampleSchema true c2state 'y').1.currentToolUse = none ∧
     (stepChar sampleSchema true c2state 'y').1.paramValueBuffer = [] ∧
     (stepChar sampleSchema true c2state 'y').1.textBuffer =
       c2state.textBuffer ++ ('<' :: (c2state.tagBuffer ++ ['y'] ++ ['y'])) ∧
     (stepChar sampleSchema true c2state 'y').1.pstate = PState.text ∧
     (stepChar sampleSchema true c2state 'y').1.currentNode = NodePos.root ∧
     (stepChar sampleSchema false c2state 'y').2 =
       [Ev.err ("Invalid param name: ".toList ++ (c2state.tagBuffer ++ ['y']) ++
                " for tool ".toList ++ "read_file".toList)] ∧
     (stepChar sampleSchema false c2state 'y').1.paramValueBuffer =
       c2state.paramValueBuffer ++ ('<' :: (c2state.tagBuffer ++ ['y'] ++ ['y'])) ∧
     (stepChar sampleSchema false c2state 'y').1.currentToolUse = c2state.currentToolUse ∧
     (stepChar sampleSchema false c2state 'y').1.pstate = PState.textContent) :=
  ⟨⟨by decide, by decide, by decide, by decide, by decide⟩,
   c2_relaxed_invalid_param_divergence sampleSchema c2state 'y' "read_file".toList
     (by decide) (by decide) (by decide) (by decide) (by decide)⟩

/-- Claim C2, counterexample to the claim as stated: in relaxed mode the
input `"<read_file>x"` still emits an error event (the `Unexpected character`
error of the `TextContent` site, which is not guarded by `relaxedMode`), and
after `"<read_file><xy"` the relaxed parser has appended the recovery literal
to `text_buffer` (with empty `param_value_buffer`), not to
`param_value_buffer` as the strict parser does. -/
theorem c2_relaxed_claim_false :
    (runEvents sampleSchema true (chunkOps "<read_file>x".toList) =
      [Ev.err "Unexpected character \"x\" in read_file context".toList,
       Ev.blk (Block.toolUse "read_file".toList [] true)]) ∧
    ((processChars sampleSchema true initSt "<read_file><xy".toList).1.paramValueBuffer = [] ∧
     (processChars sampleSchema false initSt "<read_file><xy".toList).1.paramValueBuffer = "<xyy".toList ∧
     (processChars sampleSchema true initSt "<read_file><xy".toList).1.textBuffer = "<xyy".toList) := by
  decide

/-- C2 (amended): the relaxed-mode error taxonomy and recovery, as the code
implements them.  (1) In `Text` and `TextContent` states the character step
does not consult the mode at all, so the `Unexpected character` errors are
emitted in relaxed mode exactly as in strict mode.  (2) Invalid-tag errors
(invalid tool/parameter/tag names) are suppressed in relaxed mode at every
position.  (3) The stray-closing-tag and whitespace-after-`<` errors are
suppressed in relaxed mode.  (4,6) A mismatched closing tag is suppressed in
relaxed mode when the current node allows text content, but (5,7) when the
current node disallows text (e.g. directly inside a tool) the mismatched
closing-tag error is emitted even in relaxed mode, in both the complete-tag
and the early prefix-check form.  (8) The `Unexpected whitespace in parameter
tag` error is emitted in relaxed mode.  (9) Recovery for an invalid parameter
name inside a tool differs between the modes: relaxed mode appends the
literal to `text_buffer`, resets the tool state and returns to `Text`,
whereas strict mode appends it to `param_value_buffer` and stays in
`TextContent` with the tool-use alive. -/
theorem c2_relaxed_error_taxonomy :
    (∀ (sch : Schema) (st : St) (c : Char),
      st.pstate = PState.text ∨ st.pstate = PState.textContent →
      stepChar sch true st c = stepChar sch false st c) ∧
    (∀ (st : St) (c : Char), (handleInvalidTag true st c).2 = []) ∧
    (∀ (st : St) (c : Char), (tagOpeningStep true st c).2 = []) ∧
    (∀ st : St, allowsText st.currentNode = true →
      nodeName st.currentNode ≠ st.closingTagBuffer → (processClosingTag true st).2 = []) ∧
    (∀ st : St, allowsText st.currentNode = false →
      nodeName st.currentNode ≠ st.closingTagBuffer →
      (processClosingTag true st).2 = [Ev.err (mismatchMsgFull st.currentNode st.closingTagBuffer)]) ∧
    (∀ st : St, allowsText st.currentNode = true → (handleMismatchedClosingTag true st).2 = []) ∧
    (∀ st : St, allowsText st.currentNode = false →
      (handleMismatchedClosingTag true st).2 = [Ev.err (mismatchMsgNoGt st.currentNode st.closingTagBuffer)]) ∧
    (∀ (sch : Schema) (st : St) (c : Char) (m : NodePos),
      st.pstate = PState.tagName → isWS c = true → c ≠ '>' →
      findChild sch st.currentNode st.tagBuffer = some m →
      (stepChar sch true st c).2 = [Ev.err "Unexpected whitespace in parameter tag".toList]) ∧
    (∀ (sch : Schema) (st : St) (c : Char) (t : Str),
      st.pstate = PState.tagName → st.currentNode = NodePos.tool t →
      c ≠ '>' → isWS c = false →
      anyChildBegins sch (NodePos.tool t) (st.tagBuffer ++ [c]) = false →
      ((stepChar sch true st c).2 = [] ∧
       (stepChar sch true st c).1.currentToolUse = none ∧
       (stepChar sch true st c).1.paramValueBuffer = [] ∧
       (stepChar sch true st c).1.textBuffer = st.textBuffer ++ ('<' :: (st.tagBuffer ++ [c] ++ [c])) ∧
       (stepChar sch true st c).1.pstate = PState.text ∧
       (stepChar sch true st c).1.currentNode = NodePos.root ∧
       (stepChar sch false st c).2 =
         [Ev.err ("Invalid param name: ".toList ++ (st.tagBuffer ++ [c]) ++ " for tool ".toList ++ t)] ∧
       (stepChar sch false st c).1.paramValueBuffer =
         st.paramValueBuffer ++ ('<' :: (st.tagBuffer ++ [c] ++ [c])) ∧
       (stepChar sch false st c).1.currentToolUse = st.currentToolUse ∧
       (stepChar sch false st c).1.pstate = PState.textContent)) := by
  have hinv : ∀ (st : St) (c : Char), (handleInvalidTag true st c).2 = [] := by
    intro st c
    unfold handleInvalidTag
    rw [if_pos rfl]
    by_cases h1 : st.currentNode = NodePos.root
    · rw [if_pos h1]
    · rw [if_neg h1]
      by_cases h2 : allowsText st.currentNode = true
      · rw [if_pos h2]
      · rw [if_neg h2]
  refine ⟨?_, hinv, ?_, ?_, ?_, ?_, ?_, ?_, c2_relaxed_invalid_param_divergence⟩
  · intro sch st c h
    rcases h with h | h
    · rw [stepChar_text sch true st c h, stepChar_text sch false st c h]
    · rw [stepChar_textContent sch true st c h, stepChar_textContent sch false st c h]
  · intro st c
    unfold tagOpeningStep
    by_cases h1 : c = '/'
    · rw [if_pos h1]
      by_cases h2 : (parentOf st.currentNode).isSome = true
      · rw [if_pos h2]
      · rw [if_neg h2]
        rfl
    · rw [if_neg h1]
      by_cases h2 : isWS c = true
      · rw [if_pos h2]
        rfl
      · rw [if_neg h2]
  · intro st h hne
    unfold processClosingTag
    rw [if_neg hne, if_pos ⟨rfl, h⟩]
    by_cases h2 : st.currentParamName.isSome = true
    · rw [if_pos h2]
    · rw [if_neg h2]
  · intro st h hne
    unfold processClosingTag
    rw [if_neg hne,
        if_neg (show ¬ (true = true ∧ allowsText st.currentNode = true) from fun hco => by simp [h] at hco),
        if_neg (show ¬ allowsText st.currentNode = true from by simp [h])]
  · intro st h
    unfold handleMismatchedClosingTag
    rw [if_pos ⟨rfl, h⟩]
    by_cases h2 : st.currentParamName.isSome = true
    · rw [if_pos h2]
    · rw [if_neg h2]
  · intro st h
    unfold handleMismatchedClosingTag
    rw [if_neg (show ¬ (true = true ∧ allowsText st.currentNode = true) from fun hco => by simp [h] at hco),
        if_neg (show ¬ allowsText st.currentNode = true from by simp [h])]
  · intro sch st c m hp hws hgt hf
    rw [stepChar_tagName sch true st c hp]
    unfold tagNameStep
    rw [if_neg (show ¬ (c ≠ '>' ∧ ¬ isWS c = true) from fun hco => by simp [hws] at hco), hf]
    show (if c = '>' then handleValidTag st m
          else ((handleInvalidTag true st c).1,
            Ev.err "Unexpected whitespace in parameter tag".toList :: (handleInvalidTag true st c).2)).2 =
        [Ev.err "Unexpected whitespace in parameter tag".toList]
    rw [if_neg hgt, hinv st c]

/-- A relaxed-mode closing-tag state directly inside a tool (text content
disallowed): the parser has read `"<read_file></"` and the next character is
taken to be `p`, a mismatch with `read_file`. -/
def c2mismatchSt : St :=
  { (processChars sampleSchema true initSt "<read_file></".toList).1 with closingTagBuffer := "p".toList }

/-- A relaxed-mode closing-tag state inside a parameter (text content
allowed): the parser has read `"<read_file><path></"` and the next character
is taken to be `x`, a mismatch with `path`. -/
def c2paramMismatchSt : St :=
  { (processChars sampleSchema true initSt "<read_file><path></".toList).1 with closingTagBuffer := "x".toList }

/-- A relaxed-mode tag-name state holding the complete parameter name
`path`. -/
def c2wsSt : St := (processChars sampleSchema true initSt "<read_file><path".toList).1

/-- A relaxed-mode `TextContent` state directly inside a tool. -/
def c2tcSt : St := (processChars sampleSchema true initSt "<read_file>".toList).1

/-- Witness for claim C2 at concrete inputs: mode-independence of the
`TextContent` step after `"<read_file>"`, suppressed invalid-tag and
tag-opening errors, a suppressed mismatched closing tag inside a parameter
versus an emitted one directly inside a tool (`"<read_file></p"`), the
relaxed whitespace-in-parameter-tag error after `"<read_file><path"`, and
the invalid-parameter recovery divergence at `c2state` with `y`. -/
theorem c2_relaxed_error_taxonomy_witness :
    (stepChar sampleSchema true c2tcSt 'x' = stepChar sampleSchema false c2tcSt 'x') ∧
    ((handleInvalidTag true c2state 'y').2 = []) ∧
    ((tagOpeningStep true c2state ' ').2 = []) ∧
    ((processClosingTag true c2paramMismatchSt).2 = []) ∧
    ((processClosingTag true c2mismatchSt).2 =
      [Ev.err (mismatchMsgFull c2mismatchSt.currentNode c2mismatchSt.closingTagBuffer)]) ∧
    ((handleMismatchedClosingTag true c2paramMismatchSt).2 = []) ∧
    ((handleMismatchedClosingTag true c2mismatchSt).2 =
      [Ev.err (mismatchMsgNoGt c2mismatchSt.currentNode c2mismatchSt.closingTagBuffer)]) ∧
    ((stepChar sampleSchema true c2wsSt ' ').2 =
      [Ev.err "Unexpected whitespace in parameter tag".toList]) ∧
    ((stepChar sampleSchema true c2state 'y').2 = [] ∧
     (stepChar sampleSchema true c2state 'y').1.currentToolUse = none ∧
     (stepChar sampleSchema true c2state 'y').1.paramValueBuffer = [] ∧
     (stepChar sampleSchema true c2state 'y').1.textBuffer =
       c2state.textBuffer ++ ('<' :: (c2state.tagBuffer ++ ['y'] ++ ['y'])) ∧
     (stepChar sampleSchema true c2state 'y').1.pstate = PState.text ∧
     (stepChar sampleSchema true c2state 'y').1.currentNode = NodePos.root ∧
     (stepChar sampleSchema false c2state 'y').2 =
       [Ev.err ("Invalid param name: ".toList ++ (c2state.tagBuffer ++ ['y']) ++
                " for tool ".toList ++ "read_file".toList)] ∧
     (stepChar sampleSchema false c2state 'y').1.paramValueBuffer =
       c2state.paramValueBuffer ++ ('<' :: (c2state.tagBuffer ++ ['y'] ++ ['y'])) ∧
     (stepChar sampleSchema false c2state 'y').1.currentToolUse = c2state.currentToolUse ∧
     (stepChar sampleSchema false c2state 'y').1.pstate = PState.textContent) :=
  ⟨c2_relaxed_error_taxonomy.1 sampleSchema c2tcSt 'x' (by decide),
   c2_relaxed_error_taxonomy.2.1 c2state 'y',
   c2_relaxed_error_taxonomy.2.2.1 c2state ' ',
   c2_relaxed_error_taxonomy.2.2.2.1 c2paramMismatchSt (by decide) (by decide),
   c2_relaxed_error_taxonomy.2.2.2.2.1 c2mismatchSt (by decide) (by decide),
   c2_relaxed_error_taxonomy.2.2.2.2.2.1 c2paramMismatchSt (by decide),
   c2_relaxed_error_taxonomy.2.2.2.2.2.2.1 c2mismatchSt (by decide),
   c2_relaxed_error_taxonomy.2.2.2.2.2.2.2.1 sampleSchema c2wsSt ' '
     (NodePos.param "read_file".toList "path".toList) (by decide) (by decide) (by decide) (by decide),
   c2_relaxed_error_taxonomy.2.2.2.2.2.2.2.2 sampleSchema c2state 'y' "read_file".toList
     (by decide) (by decide) (by decide) (by decide) (by decide)⟩

/-- Claim C9 (amended): when a tool-use is in flight and the parser is not in
`Text` state with a non-empty text buffer, `processChunk("")` emits exactly
one block — a partial `ToolUse` snapshot — and a repeated empty-chunk call
re-emits the same snapshot. -/
theorem c9_empty_chunk_snapshot (sch : Schema) (relaxed : Bool) (st : St) (tu : ToolUse)
    (htu : st.currentToolUse = some tu)
    (hnt : ¬ (st.pstate = PState.text ∧ st.textBuffer ≠ [])) :
    ∃ ps, (processChunk sch relaxed st []).2 = [Ev.blk (Block.toolUse tu.name ps true)] ∧
      (processChunk sch relaxed (processChunk sch relaxed st []).1 []).2 =
        [Ev.blk (Block.toolUse tu.name ps true)] := by
  rw [processChunk_nil, processChunk_nil]
  obtain ⟨ps, hps⟩ := chunkEndStore_toolUse st tu htu
  have h1 : emitPartialAtChunkEnd st =
      (chunkEndStore st, [Ev.blk (Block.toolUse tu.name ps true)]) := by
    unfold emitPartialAtChunkEnd
    rw [if_neg hnt, htu]
    unfold emitToolSnapshot
    rw [hps]
  have hnt2 : ¬ ((chunkEndStore st).pstate = PState.text ∧
      (chunkEndStore st).textBuffer ≠ []) := by
    rw [chunkEndStore_pstate, chunkEndStore_textBuffer]
    exact hnt
  have h2 : emitPartialAtChunkEnd (chunkEndStore st) =
      (chunkEndStore st, [Ev.blk (Block.toolUse tu.name ps true)]) := by
    unfold emitPartialAtChunkEnd
    rw [if_neg hnt2, hps]
    unfold emitToolSnapshot
    rw [chunkEndStore_idem, hps]
  refine ⟨ps, by rw [h1], ?_⟩
  rw [h1]
  show (emitPartialAtChunkEnd (chunkEndStore st)).2 = _
  rw [h2]

/-- Witness for claim C9 at a concrete input: right after the chunk
`"<read_file>"`, the in-flight tool-use is `read_file` with empty params and
the text buffer is empty. -/
theorem c9_empty_chunk_snapshot_witness :
    ((runState sampleSchema false (chunkOps "<read_file>".toList)).currentToolUse =
       some { name := "read_file".toList, params := [] }) ∧
    (¬ ((runState sampleSchema false (chunkOps "<read_file>".toList)).pstate = PState.text ∧
        (runState sampleSchema false (chunkOps "<read_file>".toList)).textBuffer ≠ [])) ∧
    (∃ ps, (processChunk sampleSchema false
              (runState sampleSchema false (chunkOps "<read_file>".toList)) []).2 =
             [Ev.blk (Block.toolUse "read_file".toList ps true)] ∧
           (processChunk sampleSchema false
              (processChunk sampleSchema false
                (runState sampleSchema false (chunkOps "<read_file>".toList)) []).1 []).2 =
             [Ev.blk (Block.toolUse "read_file".toList ps true)]) :=
  ⟨by decide, by decide,
   c9_empty_chunk_snapshot sampleSchema false
     (runState sampleSchema false (chunkOps "<read_file>".toList))
     { name := "read_file".toList, params := [] } (by decide) (by decide)⟩

/-- Claim C9, counterexample to the claim as stated: after the chunk
`"<read_file>< x"` in strict mode a tool-use is in flight, yet
`processChunk("")` emits a partial Text block and no ToolUse snapshot. -/
theorem c9_empty_chunk_claim_false :
    ((runState sampleSchema false (chunkOps "<read_file>< x".toList)).currentToolUse ≠ none) ∧
    (processChunk sampleSchema false
        (runState sampleSchema false (chunkOps "<read_file>< x".toList)) []).2 =
      [Ev.blk (Block.text "< x".toList true)] := by
  decide

/-- C1: Chunking equivalence. For every schema, mode and split s = c1 ++ c2,
the final (partial = false) blocks of the run processChunk(c1); processChunk(c2);
finalize() equal those of processChunk(c1 ++ c2); finalize() from a fresh parser. -/
theorem c1_chunking_equivalence (sch : Schema) (relaxed : Bool) (c1 c2 : Str) :
    finalBlocks (runEvents sch relaxed (chunkOps c1 ++ chunkOps c2 ++ [Op.fin])) =
      finalBlocks (runEvents sch relaxed (chunkOps (c1 ++ c2) ++ [Op.fin])) := by
  have e1 : chunkOps c1 ++ chunkOps c2 ++ [Op.fin] =
      c1.map Op.pc ++ (Op.cut :: (c2.map Op.pc ++ [Op.cut] ++ [Op.fin])) := by
    simp [chunkOps]
  have e2 : chunkOps (c1 ++ c2) ++ [Op.fin] =
      c1.map Op.pc ++ (c2.map Op.pc ++ [Op.cut] ++ [Op.fin]) := by
    simp [chunkOps]
  unfold runEvents
  rw [e1, e2, exec_append, exec_append, finalBlocks_append, finalBlocks_append]
  have hs := cut_start (exec sch relaxed initSt (c1.map Op.pc)).1
  have hb := exec_bisim sch relaxed (c2.map Op.pc ++ [Op.cut] ++ [Op.fin])
    (exec sch relaxed initSt (c1.map Op.pc)).1
    (emitPartialAtChunkEnd (exec sch relaxed initSt (c1.map Op.pc)).1).1
    (exec_inv sch relaxed (c1.map Op.pc) initSt StInv_initSt)
    hs.2
  have key : finalBlocks (exec sch relaxed (exec sch relaxed initSt (c1.map Op.pc)).1
      (Op.cut :: (c2.map Op.pc ++ [Op.cut] ++ [Op.fin]))).2 =
      finalBlocks (exec sch relaxed (exec sch relaxed initSt (c1.map Op.pc)).1
        (c2.map Op.pc ++ [Op.cut] ++ [Op.fin])).2 := by
    simp only [exec, stepOp]
    rw [finalBlocks_append, hs.1, hb.1]
    simp
  rw [key]

/-! ### A heap-instrumented model of the params-map objects (claim C7)

The pure model above holds the in-flight params map by value, so the
JavaScript reference behaviour that claim C7 speaks about (aliasing between a
delivered `params` object and the parser's working object) is invisible in
it.  The definitions below embed the same source once more, with every params
map held in an explicit heap of cells: `handleValidTag` allocates a fresh
empty cell (`params: {}`), `storeCurrentParamValue` writes the working cell
in place, `emitPartialAtChunkEnd` copies the working cell into a fresh cell
before publishing it (the object spread `{ ...params }`), and the final tool
emission of `processClosingTag` publishes the working cell itself (the spread
`{ ...this.currentToolUse }` copies the tool-use record but keeps the same
params reference) and then drops the parser's reference via
`resetToolState`.  Events record the id of the cell they deliver; `obsEv`
resolves a recorded event against a heap, and `view` collapses a heap state
back to the pure model. -/

/-- A params map (one heap cell's contents). -/
abbrev PMap := List (Str × Str)

/-- Heap lookup: the contents of cell `i` (absent cells read as empty). -/
def cellAt (h : List PMap) (i : Nat) : PMap := h.getD i []

/-- Parser state with the params maps held in a heap: `currentToolUse` keeps
the tool name together with the id of its working params cell. -/
structure StH where
  pstate : PState
  textBuffer : Str
  tagBuffer : Str
  paramValueBuffer : Str
  closingTagBuffer : Str
  currentNode : NodePos
  currentToolUse : Option (Str × Nat)
  currentParamName : Option Str
  heap : List PMap
deriving DecidableEq

/-- Heap-instrumented events: a tool-use block records the id of the params
cell it delivers. -/
inductive EvH
  | text (content : Str) (isPart : Bool)
  | tool (name : Str) (cell : Nat) (isPart : Bool)
  | err (msg : Str)
deriving DecidableEq

/-- Resolve an instrumented event against a heap. -/
def obsEv (h : List PMap) : EvH → Ev
  | .text s b => .blk (.text s b)
  | .tool n i b => .blk (.toolUse n (cellAt h i) b)
  | .err m => .err m

/-- Resolve a list of instrumented events against a heap. -/
def obsEvents (h : List PMap) (evs : List EvH) : List Ev := evs.map (obsEv h)

/-- The state of a freshly constructed parser, heap version. -/
def initStH : StH :=
  { pstate := .text, textBuffer := [], tagBuffer := [], paramValueBuffer := [], closingTagBuffer := [], currentNode := .root, currentToolUse := none, currentParamName := none, heap := [] }

/-- Collapse a heap state to the pure model: resolve the working cell by
value. -/
def view (sth : StH) : St :=
  { pstate := sth.pstate, textBuffer := sth.textBuffer, tagBuffer := sth.tagBuffer, paramValueBuffer := sth.paramValueBuffer, closingTagBuffer := sth.closingTagBuffer, currentNode := sth.currentNode, currentToolUse := match sth.currentToolUse with | some nc => some { name := nc.1, params := cellAt sth.heap nc.2 } | none => none, currentParamName := sth.currentParamName }

/-- Computable well-formedness: the working cell id (if any) is inside the
heap. -/
def liveLt (sth : StH) : Bool :=
  match sth.currentToolUse with
  | some nc => decide (nc.2 < sth.heap.length)
  | none => true

/-- The working cell (if any) differs from cell `d`. -/
def liveNe (sth : StH) (d : Nat) : Bool :=
  match sth.currentToolUse with
  | some nc => decide (nc.2 ≠ d)
  | none => true

/-- A consumer mutates the params object delivered in cell `d`, overwriting
its contents with `m`. -/
def mutateCell (sth : StH) (d : Nat) (m : PMap) : StH :=
  { sth with heap := sth.heap.set d m }

/-- `ParserContext.resetParamState`, heap version. -/
def resetParamStateH (sth : StH) : StH :=
  { sth with currentParamName := none, paramValueBuffer := [] }

/-- `ParserContext.resetToolState`, heap version: the parser drops its
reference to the working cell; the cell itself survives in the heap. -/
def resetToolStateH (sth : StH) : StH :=
  { resetParamStateH sth with currentToolUse := none, tagBuffer := [], closingTagBuffer := [] }

/-- `ParserContext.storeCurrentParamValue`, heap version: write the working
cell in place. -/
def storeParamValueH (sth : StH) : StH :=
  match sth.currentToolUse, sth.currentParamName with
  | some nc, some p => { sth with heap := sth.heap.set nc.2 (setParam (cellAt sth.heap nc.2) p sth.paramValueBuffer) }
  | _, _ => sth

/-- `TextState.processChar`, heap version. -/
def textStepH (sth : StH) (c : Char) : StH × List EvH :=
  if c = '<' then
    if sth.textBuffer ≠ [] ∧ jsTrim sth.textBuffer ≠ [] then
      ({ sth with textBuffer := [], tagBuffer := [], pstate := .tagOpening }, [.text (jsTrim sth.textBuffer) false])
    else
      ({ sth with tagBuffer := [], pstate := .tagOpening }, [])
  else if ¬ allowsText sth.currentNode then
    if ¬ isWS c then
      ({ sth with textBuffer := sth.textBuffer ++ [c] }, [.err ("Unexpected character \"".toList ++ [c] ++ "\" outside of allowed text content".toList)])
    else
      (sth, [])
  else
    ({ sth with textBuffer := sth.textBuffer ++ [c] }, [])

/-- `TagOpeningState.processChar`, heap version. -/
def tagOpeningStepH (relaxed : Bool) (sth : StH) (c : Char) : StH × List EvH :=
  if c = '/' then
    if (parentOf sth.currentNode).isSome then
      ({ sth with closingTagBuffer := [], pstate := .closingTag }, [])
    else
      ({ sth with textBuffer := sth.textBuffer ++ "</".toList, pstate := .text },
       if relaxed then [] else [.err "Closing tag without matching opening tag".toList])
  else if isWS c then
    ({ sth with textBuffer := sth.textBuffer ++ '<' :: [c], pstate := .text },
     if relaxed then [] else [.err "Unexpected whitespace after '<'".toList])
  else
    ({ sth with tagBuffer := [c], pstate := .tagName }, [])

/-- The re-inserted invalid-tag literal, heap version. -/
def invalidLitH (sth : StH) (c : Char) : Str := '<' :: (sth.tagBuffer ++ [c])

/-- The unrecoverable-position fallback of `handleInvalidTag`, heap
version. -/
def invalidFallbackH (sth : StH) (c : Char) : StH :=
  { resetToolStateH { sth with textBuffer := sth.textBuffer ++ invalidLitH sth c, tagBuffer := [] } with currentNode := NodePos.root, pstate := PState.text }

/-- `TagNameState.handleInvalidTag`, heap version. -/
def handleInvalidTagH (relaxed : Bool) (sth : StH) (c : Char) : StH × List EvH :=
  if relaxed then
    if sth.currentNode = .root then
      ({ sth with textBuffer := sth.textBuffer ++ invalidLitH sth c, tagBuffer := [], pstate := .text }, [])
    else if allowsText sth.currentNode then
      ({ sth with paramValueBuffer := sth.paramValueBuffer ++ invalidLitH sth c, tagBuffer := [], pstate := .textContent }, [])
    else
      (invalidFallbackH sth c, [])
  else
    if sth.currentNode = .root then
      ({ sth with textBuffer := sth.textBuffer ++ invalidLitH sth c, tagBuffer := [], pstate := .text },
       [.err ("Invalid tool name: ".toList ++ sth.tagBuffer)])
    else if parentOf sth.currentNode = some .root then
      ({ sth with paramValueBuffer := sth.paramValueBuffer ++ invalidLitH sth c, tagBuffer := [], pstate := .textContent },
       [.err ("Invalid param name: ".toList ++ sth.tagBuffer ++ " for tool ".toList ++ nodeName sth.currentNode)])
    else if allowsText sth.currentNode then
      ({ sth with paramValueBuffer := sth.paramValueBuffer ++ invalidLitH sth c, tagBuffer := [], pstate := .textContent },
       [.err ("Invalid tag name: ".toList ++ sth.tagBuffer ++ " in ".toList ++ nodeName sth.currentNode)])
    else
      (invalidFallbackH sth c, [])

/-- `TagNameState.handleValidTag`, heap version: opening a tool allocates a
fresh empty params cell (`params: {}` in the source). -/
def handleValidTagH (sth : StH) (matched : NodePos) : StH × List EvH :=
  match matched with
  | .tool t =>
    ({ sth with currentNode := matched, currentToolUse := some (t, sth.heap.length), heap := sth.heap ++ [([] : PMap)], tagBuffer := [], pstate := .textContent }, [])
  | .param _ p =>
    ({ sth with currentNode := matched, currentParamName := some p, paramValueBuffer := [], tagBuffer := [], pstate := .textContent }, [])
  | .root =>
    ({ sth with currentNode := matched, pstate := .text },
     [.err ("Unexpected tag structure for ".toList ++ nodeName matched)])

/-- `TagNameState.processChar`, heap version. -/
def tagNameStepH (sch : Schema) (relaxed : Bool) (sth : StH) (c : Char) : StH × List EvH :=
  if c ≠ '>' ∧ ¬ isWS c then
    if ¬ anyChildBegins sch sth.currentNode (sth.tagBuffer ++ [c]) then
      handleInvalidTagH relaxed { sth with tagBuffer := sth.tagBuffer ++ [c] } c
    else
      ({ sth with tagBuffer := sth.tagBuffer ++ [c] }, [])
  else
    match findChild sch sth.currentNode sth.tagBuffer with
    | some m =>
      if c = '>' then
        handleValidTagH sth m
      else
        let r := handleInvalidTagH relaxed sth c
        (r.1, .err "Unexpected whitespace in parameter tag".toList :: r.2)
    | none => handleInvalidTagH relaxed sth c

/-- `TextContentState.processChar`, heap version. -/
def textContentStepH (sth : StH) (c : Char) : StH × List EvH :=
  if c = '<' then
    ({ sth with tagBuffer := [], pstate := .tagOpening }, [])
  else if sth.currentParamName.isSome then
    ({ sth with paramValueBuffer := sth.paramValueBuffer ++ [c] }, [])
  else if allowsText sth.currentNode then
    ({ sth with textBuffer := sth.textBuffer ++ [c] }, [])
  else if isWS c then
    (sth, [])
  else
    ({ sth with textBuffer := sth.textBuffer ++ [c] },
     [.err ("Unexpected character \"".toList ++ [c] ++ "\" in ".toList ++ nodeName sth.currentNode ++ " context".toList)])

/-- `ClosingTagState.handleMismatchedClosingTag`, heap version. -/
def handleMismatchedClosingTagH (relaxed : Bool) (sth : StH) : StH × List EvH :=
  if relaxed ∧ allowsText sth.currentNode then
    if sth.currentParamName.isSome then
      ({ sth with paramValueBuffer := sth.paramValueBuffer ++ closeLitNoGt sth.closingTagBuffer, closingTagBuffer := [], pstate := .textContent }, [])
    else
      ({ sth with textBuffer := sth.textBuffer ++ closeLitNoGt sth.closingTagBuffer, closingTagBuffer := [], pstate := .text }, [])
  else
    if allowsText sth.currentNode then
      if sth.currentParamName.isSome then
        ({ sth with paramValueBuffer := sth.paramValueBuffer ++ closeLitNoGt sth.closingTagBuffer, closingTagBuffer := [], pstate := .textContent }, [.err (mismatchMsgNoGt sth.currentNode sth.closingTagBuffer)])
      else
        ({ sth with textBuffer := sth.textBuffer ++ closeLitNoGt sth.closingTagBuffer, closingTagBuffer := [], pstate := .text }, [.err (mismatchMsgNoGt sth.currentNode sth.closingTagBuffer)])
    else
      ({ resetToolStateH { sth with textBuffer := sth.textBuffer ++ closeLitNoGt sth.closingTagBuffer, closingTagBuffer := [] } with currentNode := .root, pstate := .text }, [.err (mismatchMsgNoGt sth.currentNode sth.closingTagBuffer)])

/-- The post-close ascent of `processClosingTag`, heap version. -/
def closeAscendH (sth : StH) : StH :=
  { sth with currentNode := (parentOf sth.currentNode).getD .root, closingTagBuffer := [], pstate := if (parentOf sth.currentNode).getD .root = NodePos.root then PState.text else PState.textContent }

/-- The matching-closing-tag branch of `processClosingTag`, heap version:
closing a tool publishes the working cell itself (the spread
`{ ...currentToolUse }` keeps the same params reference) and then drops the
parser's reference. -/
def closeMatchedH (sth : StH) : StH × List EvH :=
  if sth.currentParamName = some sth.closingTagBuffer then
    (closeAscendH (resetParamStateH (storeParamValueH sth)), [])
  else
    match sth.currentToolUse with
    | some nc =>
      if nc.1 = sth.closingTagBuffer then
        (closeAscendH (resetToolStateH sth), [EvH.tool nc.1 nc.2 false])
      else (closeAscendH sth, [])
    | none => (closeAscendH sth, [])

/-- `ClosingTagState.processClosingTag`, heap version. -/
def processClosingTagH (relaxed : Bool) (sth : StH) : StH × List EvH :=
  if nodeName sth.currentNode = sth.closingTagBuffer then
    closeMatchedH sth
  else
    if relaxed ∧ allowsText sth.currentNode then
      if sth.currentParamName.isSome then
        ({ sth with paramValueBuffer := sth.paramValueBuffer ++ closeLit sth.closingTagBuffer, pstate := .textContent }, [])
      else
        ({ sth with textBuffer := sth.textBuffer ++ closeLit sth.closingTagBuffer, pstate := .text }, [])
    else
      if allowsText sth.currentNode then
        if sth.currentParamName.isSome then
          ({ sth with paramValueBuffer := sth.paramValueBuffer ++ closeLit sth.closingTagBuffer, pstate := .textContent }, [.err (mismatchMsgFull sth.currentNode sth.closingTagBuffer)])
        else
          ({ sth with textBuffer := sth.textBuffer ++ closeLit sth.closingTagBuffer, pstate := .text }, [.err (mismatchMsgFull sth.currentNode sth.closingTagBuffer)])
      else
        ({ resetToolStateH { sth with textBuffer := sth.textBuffer ++ closeLit sth.closingTagBuffer } with currentNode := .root, pstate := .text }, [.err (mismatchMsgFull sth.currentNode sth.closingTagBuffer)])

/-- `ClosingTagState.processChar`, heap version. -/
def closingTagStepH (relaxed : Bool) (sth : StH) (c : Char) : StH × List EvH :=
  if c = '>' then
    processClosingTagH relaxed sth
  else
    if (nodeName sth.currentNode).take (sth.closingTagBuffer ++ [c]).length ≠ sth.closingTagBuffer ++ [c] then
      handleMismatchedClosingTagH relaxed { sth with closingTagBuffer := sth.closingTagBuffer ++ [c] }
    else
      ({ sth with closingTagBuffer := sth.closingTagBuffer ++ [c] }, [])

/-- One character step, heap version. -/
def stepCharH (sch : Schema) (relaxed : Bool) (sth : StH) (c : Char) : StH × List EvH :=
  match sth.pstate with
  | .text => textStepH sth c
  | .tagOpening => tagOpeningStepH relaxed sth c
  | .tagName => tagNameStepH sch relaxed sth c
  | .textContent => textContentStepH sth c
  | .closingTag => closingTagStepH relaxed sth c

/-- The tail of the tool branch of `emitPartialAtChunkEnd`, heap version:
copy the working cell into a fresh cell (`{ ...params }`) and publish the
fresh cell. -/
def emitToolSnapshotH (sth : StH) : StH × List EvH :=
  match sth.currentToolUse with
  | some nc => ({ sth with heap := sth.heap ++ [cellAt sth.heap nc.2] }, [EvH.tool nc.1 sth.heap.length true])
  | none => (sth, [])

/-- The transient store of `emitPartialAtChunkEnd`, heap version. -/
def chunkEndStoreH (sth : StH) : StH :=
  if sth.pstate = .textContent ∧ sth.currentNode ≠ .root then storeParamValueH sth else sth

/-- `StreamingToolParser.emitPartialAtChunkEnd`, heap version. -/
def emitPartialAtChunkEndH (sth : StH) : StH × List EvH :=
  if sth.pstate = .text ∧ sth.textBuffer ≠ [] then
    if jsTrim sth.textBuffer ≠ [] then (sth, [.text (jsTrim sth.textBuffer) true]) else (sth, [])
  else
    match sth.currentToolUse with
    | some _ => emitToolSnapshotH (chunkEndStoreH sth)
    | none => (sth, [])

/-- `StreamingToolParser.finalize`, heap version: the parser drops all its
references; the heap cells survive (the delivered objects live on in the
consumer). -/
def finalizeStepH (sth : StH) : StH × List EvH :=
  let evs : List EvH :=
    if sth.pstate = .text ∧ sth.textBuffer ≠ [] ∧ jsTrim sth.textBuffer ≠ [] then
      [.text (jsTrim sth.textBuffer) false]
    else []
  ({ initStH with heap := sth.heap }, evs)

/-- One driver operation, heap version. -/
def stepOpH (sch : Schema) (relaxed : Bool) (sth : StH) : Op → StH × List EvH
  | .pc c => stepCharH sch relaxed sth c
  | .cut => emitPartialAtChunkEndH sth
  | .fin => finalizeStepH sth

/-- Run a list of driver operations, heap version. -/
def execH (sch : Schema) (relaxed : Bool) (sth : StH) : List Op → StH × List EvH
  | [] => (sth, [])
  | op :: rest =>
    let r1 := stepOpH sch relaxed sth op
    let r2 := execH sch relaxed r1.1 rest
    (r2.1, r1.2 ++ r2.2)

/-- Heap state of a full run from a fresh parser. -/
def runStateH (sch : Schema) (relaxed : Bool) (ops : List Op) : StH :=
  (execH sch relaxed initStH ops).1

/-- Well-formedness of a heap state: the working cell id is inside the
heap. -/
def WfH (sth : StH) : Prop :=
  ∀ n i, sth.currentToolUse = some (n, i) → i < sth.heap.length

/-- Cell `c` is dead: it is allocated but is not the working cell, so the
parser will never write it again. -/
def DeadC (sth : StH) (c : Nat) : Prop :=
  c < sth.heap.length ∧ ∀ n i, sth.currentToolUse = some (n, i) → c ≠ i

/-- Every cell delivered by an event is dead in the given state. -/
def EvDead (sth : StH) : EvH → Prop
  | .tool _ i _ => DeadC sth i
  | _ => True

/-- One heap step simulates its pure counterpart: the views agree, the
events resolved against the post-step heap are the pure events, the result
is well formed, dead cells stay dead with unchanged contents, and every
delivered cell is dead afterwards. -/
def SimOk (sth : StH) (res : StH × List EvH) (pres : St × List Ev) : Prop :=
  view res.1 = pres.1 ∧
  obsEvents res.1.heap res.2 = pres.2 ∧
  WfH res.1 ∧
  (∀ c, DeadC sth c → DeadC res.1 c ∧ cellAt res.1.heap c = cellAt sth.heap c) ∧
  (∀ e ∈ res.2, EvDead res.1 e)

theorem cellAt_set_ne (h : List PMap) (i j : Nat) (m : PMap) (hj : j ≠ i) :
    cellAt (h.set i m) j = cellAt h j := by
  simp [cellAt, List.getD_eq_getElem?_getD, List.getElem?_set_ne (Ne.symm hj)]

theorem cellAt_set_self (h : List PMap) (i : Nat) (m : PMap) (hi : i < h.length) :
    cellAt (h.set i m) i = m := by
  simp [cellAt, List.getD_eq_getElem?_getD, List.getElem?_set_self, hi]

theorem cellAt_append_lt (h h2 : List PMap) (j : Nat) (hj : j < h.length) :
    cellAt (h ++ h2) j = cellAt h j := by
  simp [cellAt, List.getD_eq_getElem?_getD, List.getElem?_append_left hj]

theorem cellAt_append_self (h : List PMap) (x : PMap) :
    cellAt (h ++ [x]) h.length = x := by
  simp [cellAt, List.getD_eq_getElem?_getD]

theorem view_pstate (sth : StH) : (view sth).pstate = sth.pstate := rfl

theorem view_textBuffer (sth : StH) : (view sth).textBuffer = sth.textBuffer := rfl

theorem view_tagBuffer (sth : StH) : (view sth).tagBuffer = sth.tagBuffer := rfl

theorem view_paramValueBuffer (sth : StH) : (view sth).paramValueBuffer = sth.paramValueBuffer := rfl

theorem view_closingTagBuffer (sth : StH) : (view sth).closingTagBuffer = sth.closingTagBuffer := rfl

theorem view_currentNode (sth : StH) : (view sth).currentNode = sth.currentNode := rfl

theorem view_currentParamName (sth : StH) : (view sth).currentParamName = sth.currentParamName := rfl

theorem view_toolUse_none (sth : StH) (h : sth.currentToolUse = none) :
    (view sth).currentToolUse = none := by
  simp [view, h]

theorem view_toolUse_some (sth : StH) (n : Str) (i : Nat)
    (h : sth.currentToolUse = some (n, i)) :
    (view sth).currentToolUse = some { name := n, params := cellAt sth.heap i } := by
  simp [view, h]

theorem evDead_nil (sth : StH) : ∀ e ∈ ([] : List EvH), EvDead sth e := by
  intro e he; cases he

theorem evDead_text (sth : StH) (s : Str) (b : Bool) :
    ∀ e ∈ [EvH.text s b], EvDead sth e := by
  intro e he
  rw [List.mem_singleton] at he
  subst he
  trivial

theorem evDead_err (sth : StH) (m : Str) :
    ∀ e ∈ [EvH.err m], EvDead sth e := by
  intro e he
  rw [List.mem_singleton] at he
  subst he
  trivial

theorem SimOk_inert (sth : StH) (res : StH × List EvH) (pres : St × List Ev)
    (hwf : WfH sth)
    (hheap : res.1.heap = sth.heap)
    (hlive : res.1.currentToolUse = sth.currentToolUse)
    (hview : view res.1 = pres.1)
    (hev : obsEvents res.1.heap res.2 = pres.2)
    (hed : ∀ e ∈ res.2, EvDead res.1 e) :
    SimOk sth res pres := by
  refine ⟨hview, hev, ?_, ?_, hed⟩
  · intro n i hh
    rw [hlive] at hh
    rw [hheap]
    exact hwf n i hh
  · intro c hc
    refine ⟨⟨?_, ?_⟩, ?_⟩
    · rw [hheap]; exact hc.1
    · intro n i hh; rw [hlive] at hh; exact hc.2 n i hh
    · rw [hheap]

theorem evDead_ite_err (sth : StH) (b : Bool) (m : Str) :
    ∀ e ∈ (if b = true then [] else [EvH.err m]), EvDead sth e := by
  by_cases hb : b = true
  · rw [if_pos hb]; exact evDead_nil _
  · rw [if_neg hb]; exact evDead_err _ _

theorem obsEvents_ite_err (h : List PMap) (b : Bool) (m : Str) :
    obsEvents h (if b = true then [] else [EvH.err m]) =
      (if b = true then [] else [Ev.err m]) := by
  by_cases hb : b = true
  · rw [if_pos hb, if_pos hb]; rfl
  · rw [if_neg hb, if_neg hb]; rfl

theorem textStepH_sim (sth : StH) (c : Char) (hwf : WfH sth) :
    SimOk sth (textStepH sth c) (textStep (view sth) c) := by
  unfold textStepH textStep
  by_cases h1 : c = '<'
  · by_cases h2 : sth.textBuffer ≠ [] ∧ jsTrim sth.textBuffer ≠ []
    · rw [if_pos h1, if_pos h2, if_pos h1, if_pos (show (view sth).textBuffer ≠ [] ∧ jsTrim (view sth).textBuffer ≠ [] from h2)]
      exact SimOk_inert _ _ _ hwf rfl rfl rfl rfl (evDead_text _ _ _)
    · rw [if_pos h1, if_neg h2, if_pos h1, if_neg (show ¬ ((view sth).textBuffer ≠ [] ∧ jsTrim (view sth).textBuffer ≠ []) from h2)]
      exact SimOk_inert _ _ _ hwf rfl rfl rfl rfl (evDead_nil _)
  · by_cases h2 : ¬ allowsText sth.currentNode
    · by_cases h3 : ¬ isWS c
      · rw [if_neg h1, if_pos h2, if_pos h3, if_neg h1, if_pos (show ¬ allowsText (view sth).currentNode from h2), if_pos h3]
        exact SimOk_inert _ _ _ hwf rfl rfl rfl rfl (evDead_err _ _)
      · rw [if_neg h1, if_pos h2, if_neg h3, if_neg h1, if_pos (show ¬ allowsText (view sth).currentNode from h2), if_neg h3]
        exact SimOk_inert _ _ _ hwf rfl rfl rfl rfl (evDead_nil _)
    · rw [if_neg h1, if_neg h2, if_neg h1, if_neg (show ¬ ¬ allowsText (view sth).currentNode from h2)]
      exact SimOk_inert _ _ _ hwf rfl rfl rfl rfl (evDead_nil _)

theorem tagOpeningStepH_sim (relaxed : Bool) (sth : StH) (c : Char) (hwf : WfH sth) :
    SimOk sth (tagOpeningStepH relaxed sth c) (tagOpeningStep relaxed (view sth) c) := by
  unfold tagOpeningStepH tagOpeningStep
  by_cases h1 : c = '/'
  · by_cases h2 : (parentOf sth.currentNode).isSome
    · rw [if_pos h1, if_pos h2, if_pos h1, if_pos (show (parentOf (view sth).currentNode).isSome from h2)]
      exact SimOk_inert _ _ _ hwf rfl rfl rfl rfl (evDead_nil _)
    · rw [if_pos h1, if_neg h2, if_pos h1, if_neg (show ¬ (parentOf (view sth).currentNode).isSome from h2)]
      exact SimOk_inert _ _ _ hwf rfl rfl rfl (obsEvents_ite_err _ _ _) (evDead_ite_err _ _ _)
  · by_cases h2 : isWS c
    · rw [if_neg h1, if_pos h2, if_neg h1, if_pos h2]
      exact SimOk_inert _ _ _ hwf rfl rfl rfl (obsEvents_ite_err _ _ _) (evDead_ite_err _ _ _)
    · rw [if_neg h1, if_neg h2, if_neg h1, if_neg h2]
      exact SimOk_inert _ _ _ hwf rfl rfl rfl rfl (evDead_nil _)

theorem textContentStepH_sim (sth : StH) (c : Char) (hwf : WfH sth) :
    SimOk sth (textContentStepH sth c) (textContentStep (view sth) c) := by
  unfold textContentStepH textContentStep
  by_cases h1 : c = '<'
  · rw [if_pos h1, if_pos h1]
    exact SimOk_inert _ _ _ hwf rfl rfl rfl rfl (evDead_nil _)
  · by_cases h2 : sth.currentParamName.isSome
    · rw [if_neg h1, if_pos h2, if_neg h1, if_pos (show (view sth).currentParamName.isSome from h2)]
      exact SimOk_inert _ _ _ hwf rfl rfl rfl rfl (evDead_nil _)
    · by_cases h3 : allowsText sth.currentNode
      · rw [if_neg h1, if_neg h2, if_pos h3, if_neg h1, if_neg (show ¬ (view sth).currentParamName.isSome from h2), if_pos (show allowsText (view sth).currentNode = true from h3)]
        exact SimOk_inert _ _ _ hwf rfl rfl rfl rfl (evDead_nil _)
      · by_cases h4 : isWS c
        · rw [if_neg h1, if_neg h2, if_neg h3, if_pos h4, if_neg h1, if_neg (show ¬ (view sth).currentParamName.isSome from h2), if_neg (show ¬ allowsText (view sth).currentNode = true from h3), if_pos h4]
          exact SimOk_inert _ _ _ hwf rfl rfl rfl rfl (evDead_nil _)
        · rw [if_neg h1, if_neg h2, if_neg h3, if_neg h4, if_neg h1, if_neg (show ¬ (view sth).currentParamName.isSome from h2), if_neg (show ¬ allowsText (view sth).currentNode = true from h3), if_neg h4]
          exact SimOk_inert _ _ _ hwf rfl rfl rfl rfl (evDead_err _ _)

theorem SimOk_drop (sth : StH) (res : StH × List EvH) (pres : St × List Ev)
    (hheap : res.1.heap = sth.heap)
    (hlive : res.1.currentToolUse = none)
    (hview : view res.1 = pres.1)
    (hev : obsEvents res.1.heap res.2 = pres.2)
    (hed : ∀ e ∈ res.2, EvDead res.1 e) :
    SimOk sth res pres := by
  refine ⟨hview, hev, ?_, ?_, hed⟩
  · intro n i hh
    rw [hlive] at hh
    cases hh
  · intro c hc
    refine ⟨⟨?_, ?_⟩, ?_⟩
    · rw [hheap]; exact hc.1
    · intro n i hh; rw [hlive] at hh; cases hh
    · rw [hheap]

theorem SimOk_mono (sth sth' : StH) (res : StH × List EvH) (pres : St × List Ev)
    (hheap : sth'.heap = sth.heap)
    (hlive : sth'.currentToolUse = sth.currentToolUse)
    (h : SimOk sth' res pres) : SimOk sth res pres := by
  refine ⟨h.1, h.2.1, h.2.2.1, ?_, h.2.2.2.2⟩
  intro c hc
  refine h.2.2.2.1 c ⟨?_, ?_⟩ |>.imp ?_ ?_
  · rw [hheap]; exact hc.1
  · intro n i hh; rw [hlive] at hh; exact hc.2 n i hh
  · exact fun x => x
  · intro hx; rw [hx, hheap]

theorem handleInvalidTagH_sim (relaxed : Bool) (sth : StH) (c : Char) (hwf : WfH sth) :
    SimOk sth (handleInvalidTagH relaxed sth c) (handleInvalidTag relaxed (view sth) c) := by
  unfold handleInvalidTagH handleInvalidTag
  by_cases h1 : relaxed = true
  · rw [if_pos h1, if_pos h1]
    by_cases h2 : sth.currentNode = NodePos.root
    · rw [if_pos h2, if_pos (show (view sth).currentNode = NodePos.root from h2)]
      exact SimOk_inert _ _ _ hwf rfl rfl rfl rfl (evDead_nil _)
    · by_cases h3 : allowsText sth.currentNode
      · rw [if_neg h2, if_pos h3, if_neg (show ¬ (view sth).currentNode = NodePos.root from h2), if_pos (show allowsText (view sth).currentNode = true from h3)]
        exact SimOk_inert _ _ _ hwf rfl rfl rfl rfl (evDead_nil _)
      · rw [if_neg h2, if_neg h3, if_neg (show ¬ (view sth).currentNode = NodePos.root from h2), if_neg (show ¬ allowsText (view sth).currentNode = true from h3)]
        exact SimOk_drop _ _ _ rfl rfl rfl rfl (evDead_nil _)
  · rw [if_neg h1, if_neg h1]
    by_cases h2 : sth.currentNode = NodePos.root
    · rw [if_pos h2, if_pos (show (view sth).currentNode = NodePos.root from h2)]
      exact SimOk_inert _ _ _ hwf rfl rfl rfl rfl (evDead_err _ _)
    · by_cases h3 : parentOf sth.currentNode = some NodePos.root
      · rw [if_neg h2, if_pos h3, if_neg (show ¬ (view sth).currentNode = NodePos.root from h2), if_pos (show parentOf (view sth).currentNode = some NodePos.root from h3)]
        exact SimOk_inert _ _ _ hwf rfl rfl rfl rfl (evDead_err _ _)
      · by_cases h4 : allowsText sth.currentNode
        · rw [if_neg h2, if_neg h3, if_pos h4, if_neg (show ¬ (view sth).currentNode = NodePos.root from h2), if_neg (show ¬ parentOf (view sth).currentNode = some NodePos.root from h3), if_pos (show allowsText (view sth).currentNode = true from h4)]
          exact SimOk_inert _ _ _ hwf rfl rfl rfl rfl (evDead_err _ _)
        · rw [if_neg h2, if_neg h3, if_neg h4, if_neg (show ¬ (view sth).currentNode = NodePos.root from h2), if_neg (show ¬ parentOf (view sth).currentNode = some NodePos.root from h3), if_neg (show ¬ allowsText (view sth).currentNode = true from h4)]
          exact SimOk_drop _ _ _ rfl rfl rfl rfl (evDead_nil _)

theorem handleValidTagH_sim (sth : StH) (matched : NodePos) (hwf : WfH sth) :
    SimOk sth (handleValidTagH sth matched) (handleValidTag (view sth) matched) := by
  cases matched with
  | tool t =>
    refine ⟨?_, rfl, ?_, ?_, evDead_nil _⟩
    · simp [handleValidTagH, handleValidTag, view, cellAt_append_self]
    · intro n i hh
      simp [handleValidTagH] at hh ⊢
      omega
    · intro c hc
      obtain ⟨hc1, hc2⟩ := hc
      refine ⟨⟨?_, ?_⟩, ?_⟩
      · simp [handleValidTagH]
        omega
      · intro n i hh
        simp [handleValidTagH] at hh
        omega
      · show cellAt (sth.heap ++ [([] : PMap)]) c = cellAt sth.heap c
        exact cellAt_append_lt _ _ _ hc1
  | param t p =>
    exact SimOk_inert _ _ _ hwf rfl rfl rfl rfl (evDead_nil _)
  | root =>
    exact SimOk_inert _ _ _ hwf rfl rfl rfl rfl (evDead_err _ _)

theorem tagNameStepH_sim (sch : Schema) (relaxed : Bool) (sth : StH) (c : Char) (hwf : WfH sth) :
    SimOk sth (tagNameStepH sch relaxed sth c) (tagNameStep sch relaxed (view sth) c) := by
  unfold tagNameStepH tagNameStep
  by_cases h1 : c ≠ '>' ∧ ¬ isWS c
  · rw [if_pos h1, if_pos h1]
    by_cases h2 : ¬ anyChildBegins sch sth.currentNode (sth.tagBuffer ++ [c])
    · rw [if_pos h2, if_pos (show ¬ anyChildBegins sch (view sth).currentNode ((view sth).tagBuffer ++ [c]) = true from h2)]
      exact SimOk_mono sth _ _ _ rfl rfl
        (handleInvalidTagH_sim relaxed { sth with tagBuffer := sth.tagBuffer ++ [c] } c
          (fun n i hh => hwf n i hh))
    · rw [if_neg h2, if_neg (show ¬ ¬ anyChildBegins sch (view sth).currentNode ((view sth).tagBuffer ++ [c]) = true from h2)]
      exact SimOk_inert _ _ _ hwf rfl rfl rfl rfl (evDead_nil _)
  · rw [if_neg h1, if_neg h1]
    simp only [view_currentNode, view_tagBuffer]
    cases hf : findChild sch sth.currentNode sth.tagBuffer with
    | some m =>
      show SimOk sth
        (if c = '>' then handleValidTagH sth m
         else ((handleInvalidTagH relaxed sth c).1,
           EvH.err "Unexpected whitespace in parameter tag".toList :: (handleInvalidTagH relaxed sth c).2))
        (if c = '>' then handleValidTag (view sth) m
         else ((handleInvalidTag relaxed (view sth) c).1,
           Ev.err "Unexpected whitespace in parameter tag".toList :: (handleInvalidTag relaxed (view sth) c).2))
      by_cases h3 : c = '>'
      · rw [if_pos h3, if_pos h3]
        exact handleValidTagH_sim sth m hwf
      · rw [if_neg h3, if_neg h3]
        have hs := handleInvalidTagH_sim relaxed sth c hwf
        refine ⟨hs.1, ?_, hs.2.2.1, hs.2.2.2.1, ?_⟩
        · show obsEvents _ (EvH.err _ :: _) = Ev.err _ :: _
          simp only [obsEvents, List.map_cons]
          have := hs.2.1
          simp only [obsEvents] at this
          rw [this]
          rfl
        · intro e he
          rcases List.mem_cons.mp he with rfl | hm
          · trivial
          · exact hs.2.2.2.2 e hm
    | none => exact handleInvalidTagH_sim relaxed sth c hwf

theorem storeParamValueH_none (sth : StH) (h : sth.currentToolUse = none) :
    storeParamValueH sth = sth := by
  unfold storeParamValueH
  rw [h]

theorem storeParamValueH_some (sth : StH) (n : Str) (i : Nat) (p : Str)
    (h1 : sth.currentToolUse = some (n, i)) (h2 : sth.currentParamName = some p) :
    storeParamValueH sth = { sth with heap := sth.heap.set i (setParam (cellAt sth.heap i) p sth.paramValueBuffer) } := by
  unfold storeParamValueH
  rw [h1, h2]

theorem view_closeAscendH (sth : StH) : view (closeAscendH sth) = closeAscend (view sth) := rfl

theorem view_resetParamStateH (sth : StH) : view (resetParamStateH sth) = resetParamState (view sth) := rfl

theorem SimOk_comp (sth sth' : StH) (res : StH × List EvH) (pres : St × List Ev)
    (hlen : sth'.heap.length = sth.heap.length)
    (hlive : sth'.currentToolUse = sth.currentToolUse)
    (hcell : ∀ c, (∀ n i, sth.currentToolUse = some (n, i) → c ≠ i) → cellAt sth'.heap c = cellAt sth.heap c)
    (h : SimOk sth' res pres) : SimOk sth res pres := by
  refine ⟨h.1, h.2.1, h.2.2.1, ?_, h.2.2.2.2⟩
  intro c hc
  have hc' : DeadC sth' c := ⟨by rw [hlen]; exact hc.1, by intro n i hh; rw [hlive] at hh; exact hc.2 n i hh⟩
  obtain ⟨hd, he⟩ := h.2.2.2.1 c hc'
  exact ⟨hd, he.trans (hcell c hc.2)⟩

theorem handleMismatchedClosingTagH_sim (relaxed : Bool) (sth : StH) (hwf : WfH sth) :
    SimOk sth (handleMismatchedClosingTagH relaxed sth) (handleMismatchedClosingTag relaxed (view sth)) := by
  unfold handleMismatchedClosingTagH handleMismatchedClosingTag
  by_cases h1 : relaxed = true ∧ allowsText sth.currentNode
  · rw [if_pos h1, if_pos (show relaxed = true ∧ allowsText (view sth).currentNode = true from h1)]
    by_cases h2 : sth.currentParamName.isSome
    · rw [if_pos h2, if_pos (show (view sth).currentParamName.isSome = true from h2)]
      exact SimOk_inert _ _ _ hwf rfl rfl rfl rfl (evDead_nil _)
    · rw [if_neg h2, if_neg (show ¬ (view sth).currentParamName.isSome = true from h2)]
      exact SimOk_inert _ _ _ hwf rfl rfl rfl rfl (evDead_nil _)
  · rw [if_neg h1, if_neg (show ¬ (relaxed = true ∧ allowsText (view sth).currentNode = true) from h1)]
    by_cases h2 : allowsText sth.currentNode
    · rw [if_pos h2, if_pos (show allowsText (view sth).currentNode = true from h2)]
      by_cases h3 : sth.currentParamName.isSome
      · rw [if_pos h3, if_pos (show (view sth).currentParamName.isSome = true from h3)]
        exact SimOk_inert _ _ _ hwf rfl rfl rfl rfl (evDead_err _ _)
      · rw [if_neg h3, if_neg (show ¬ (view sth).currentParamName.isSome = true from h3)]
        exact SimOk_inert _ _ _ hwf rfl rfl rfl rfl (evDead_err _ _)
    · rw [if_neg h2, if_neg (show ¬ allowsText (view sth).currentNode = true from h2)]
      exact SimOk_drop _ _ _ rfl rfl rfl rfl (evDead_err _ _)

theorem closeMatchedH_sim (sth : StH) (hwf : WfH sth) :
    SimOk sth (closeMatchedH sth) (closeMatched (view sth)) := by
  unfold closeMatchedH closeMatched
  by_cases h1 : sth.currentParamName = some sth.closingTagBuffer
  · rw [if_pos h1, if_pos (show (view sth).currentParamName = some (view sth).closingTagBuffer from h1)]
    cases htu : sth.currentToolUse with
    | none =>
      have hs : storeParamValueH sth = sth := storeParamValueH_none sth htu
      have hp : storeParamValue (view sth) = view sth := by
        unfold storeParamValue
        rw [view_toolUse_none sth htu]
      rw [hs, hp]
      exact SimOk_inert _ _ _ hwf rfl rfl rfl rfl (evDead_nil _)
    | some nc =>
      obtain ⟨n, i⟩ := nc
      have hi : i < sth.heap.length := hwf n i htu
      have hs := storeParamValueH_some sth n i sth.closingTagBuffer htu h1
      have hp : storeParamValue (view sth) = { view sth with currentToolUse := some { name := n, params := setParam (cellAt sth.heap i) sth.closingTagBuffer sth.paramValueBuffer }, currentParamName := some sth.closingTagBuffer } := by
        unfold storeParamValue
        rw [view_toolUse_some sth n i htu, (show (view sth).currentParamName = some sth.closingTagBuffer from h1)]
        rfl
      rw [hs, hp]
      refine ⟨?_, rfl, ?_, ?_, evDead_nil _⟩
      · simp [view, closeAscendH, resetParamStateH, closeAscend, resetParamState, htu, cellAt_set_self _ _ _ hi]
      · intro n' i' hh
        simp [closeAscendH, resetParamStateH] at hh ⊢
        rw [htu] at hh
        simp at hh
        obtain ⟨rfl, rfl⟩ := hh
        exact hi
      · intro c hc
        obtain ⟨hc1, hc2⟩ := hc
        have hne : c ≠ i := hc2 n i htu
        refine ⟨⟨?_, ?_⟩, ?_⟩
        · simp [closeAscendH, resetParamStateH]
          omega
        · intro n' i' hh
          have hh' : sth.currentToolUse = some (n', i') := hh
          exact hc2 n' i' hh'
        · show cellAt (sth.heap.set i _) c = cellAt sth.heap c
          exact cellAt_set_ne _ _ _ _ hne
  · rw [if_neg h1, if_neg (show ¬ (view sth).currentParamName = some (view sth).closingTagBuffer from h1)]
    cases htu : sth.currentToolUse with
    | none =>
      rw [view_toolUse_none sth htu]
      exact SimOk_inert _ _ _ hwf rfl rfl rfl rfl (evDead_nil _)
    | some nc =>
      obtain ⟨n, i⟩ := nc
      rw [view_toolUse_some sth n i htu]
      show SimOk sth
        (if n = sth.closingTagBuffer then (closeAscendH (resetToolStateH sth), [EvH.tool n i false])
         else (closeAscendH sth, []))
        (if n = sth.closingTagBuffer
         then (closeAscend (resetToolState (view sth)), [Ev.blk (Block.toolUse n (cellAt sth.heap i) false)])
         else (closeAscend (view sth), []))
      by_cases h2 : n = sth.closingTagBuffer
      · rw [if_pos h2, if_pos h2]
        refine SimOk_drop _ _ _ rfl rfl rfl rfl ?_
        intro e he
        rw [List.mem_singleton] at he
        subst he
        refine ⟨hwf n i htu, ?_⟩
        intro n' i' hh
        have hz : (closeAscendH (resetToolStateH sth)).currentToolUse = none := rfl
        rw [hz] at hh
        cases hh
      · rw [if_neg h2, if_neg h2]
        exact SimOk_inert _ _ _ hwf rfl rfl rfl rfl (evDead_nil _)

theorem processClosingTagH_sim (relaxed : Bool) (sth : StH) (hwf : WfH sth) :
    SimOk sth (processClosingTagH relaxed sth) (processClosingTag relaxed (view sth)) := by
  unfold processClosingTagH processClosingTag
  by_cases h1 : nodeName sth.currentNode = sth.closingTagBuffer
  · rw [if_pos h1, if_pos (show nodeName (view sth).currentNode = (view sth).closingTagBuffer from h1)]
    exact closeMatchedH_sim sth hwf
  · rw [if_neg h1, if_neg (show ¬ nodeName (view sth).currentNode = (view sth).closingTagBuffer from h1)]
    by_cases h2 : relaxed = true ∧ allowsText sth.currentNode
    · rw [if_pos h2, if_pos (show relaxed = true ∧ allowsText (view sth).currentNode = true from h2)]
      by_cases h3 : sth.currentParamName.isSome
      · rw [if_pos h3, if_pos (show (view sth).currentParamName.isSome = true from h3)]
        exact SimOk_inert _ _ _ hwf rfl rfl rfl rfl (evDead_nil _)
      · rw [if_neg h3, if_neg (show ¬ (view sth).currentParamName.isSome = true from h3)]
        exact SimOk_inert _ _ _ hwf rfl rfl rfl rfl (evDead_nil _)
    · rw [if_neg h2, if_neg (show ¬ (relaxed = true ∧ allowsText (view sth).currentNode = true) from h2)]
      by_cases h3 : allowsText sth.currentNode
      · rw [if_pos h3, if_pos (show allowsText (view sth).currentNode = true from h3)]
        by_cases h4 : sth.currentParamName.isSome
        · rw [if_pos h4, if_pos (show (view sth).currentParamName.isSome = true from h4)]
          exact SimOk_inert _ _ _ hwf rfl rfl rfl rfl (evDead_err _ _)
        · rw [if_neg h4, if_neg (show ¬ (view sth).currentParamName.isSome = true from h4)]
          exact SimOk_inert _ _ _ hwf rfl rfl rfl rfl (evDead_err _ _)
      · rw [if_neg h3, if_neg (show ¬ allowsText (view sth).currentNode = true from h3)]
        exact SimOk_drop _ _ _ rfl rfl rfl rfl (evDead_err _ _)

theorem closingTagStepH_sim (relaxed : Bool) (sth : StH) (c : Char) (hwf : WfH sth) :
    SimOk sth (closingTagStepH relaxed sth c) (closingTagStep relaxed (view sth) c) := by
  unfold closingTagStepH closingTagStep
  by_cases h1 : c = '>'
  · rw [if_pos h1, if_pos h1]
    exact processClosingTagH_sim relaxed sth hwf
  · by_cases h2 : (nodeName sth.currentNode).take (sth.closingTagBuffer ++ [c]).length ≠ sth.closingTagBuffer ++ [c]
    · rw [if_neg h1, if_pos h2, if_neg h1, if_pos (show (nodeName (view sth).currentNode).take ((view sth).closingTagBuffer ++ [c]).length ≠ (view sth).closingTagBuffer ++ [c] from h2)]
      exact SimOk_mono sth _ _ _ rfl rfl
        (handleMismatchedClosingTagH_sim relaxed { sth with closingTagBuffer := sth.closingTagBuffer ++ [c] }
          (fun n i hh => hwf n i hh))
    · rw [if_neg h1, if_neg h2, if_neg h1, if_neg (show ¬ ((nodeName (view sth).currentNode).take ((view sth).closingTagBuffer ++ [c]).length ≠ (view sth).closingTagBuffer ++ [c]) from h2)]
      exact SimOk_inert _ _ _ hwf rfl rfl rfl rfl (evDead_nil _)

theorem stepCharH_text (sch : Schema) (r : Bool) (sth : StH) (c : Char)
    (h : sth.pstate = PState.text) : stepCharH sch r sth c = textStepH sth c := by
  unfold stepCharH; rw [h]

theorem stepCharH_tagOpening (sch : Schema) (r : Bool) (sth : StH) (c : Char)
    (h : sth.pstate = PState.tagOpening) : stepCharH sch r sth c = tagOpeningStepH r sth c := by
  unfold stepCharH; rw [h]

theorem stepCharH_tagName (sch : Schema) (r : Bool) (sth : StH) (c : Char)
    (h : sth.pstate = PState.tagName) : stepCharH sch r sth c = tagNameStepH sch r sth c := by
  unfold stepCharH; rw [h]

theorem stepCharH_textContent (sch : Schema) (r : Bool) (sth : StH) (c : Char)
    (h : sth.pstate = PState.textContent) : stepCharH sch r sth c = textContentStepH sth c := by
  unfold stepCharH; rw [h]

theorem stepCharH_closingTag (sch : Schema) (r : Bool) (sth : StH) (c : Char)
    (h : sth.pstate = PState.closingTag) : stepCharH sch r sth c = closingTagStepH r sth c := by
  unfold stepCharH; rw [h]

theorem stepCharH_sim (sch : Schema) (r : Bool) (sth : StH) (c : Char) (hwf : WfH sth) :
    SimOk sth (stepCharH sch r sth c) (stepChar sch r (view sth) c) := by
  cases hps : sth.pstate with
  | text =>
    rw [stepCharH_text sch r sth c hps, stepChar_text sch r (view sth) c (show (view sth).pstate = PState.text from hps)]
    exact textStepH_sim sth c hwf
  | tagOpening =>
    rw [stepCharH_tagOpening sch r sth c hps, stepChar_tagOpening sch r (view sth) c (show (view sth).pstate = PState.tagOpening from hps)]
    exact tagOpeningStepH_sim r sth c hwf
  | tagName =>
    rw [stepCharH_tagName sch r sth c hps, stepChar_tagName sch r (view sth) c (show (view sth).pstate = PState.tagName from hps)]
    exact tagNameStepH_sim sch r sth c hwf
  | textContent =>
    rw [stepCharH_textContent sch r sth c hps, stepChar_textContent sch r (view sth) c (show (view sth).pstate = PState.textContent from hps)]
    exact textContentStepH_sim sth c hwf
  | closingTag =>
    rw [stepCharH_closingTag sch r sth c hps, stepChar_closingTag sch r (view sth) c (show (view sth).pstate = PState.closingTag from hps)]
    exact closingTagStepH_sim r sth c hwf

theorem emitToolSnapshotH_sim (sth : StH) (hwf : WfH sth) :
    SimOk sth (emitToolSnapshotH sth) (emitToolSnapshot (view sth)) := by
  unfold emitToolSnapshotH emitToolSnapshot
  cases htu : sth.currentToolUse with
  | none =>
    rw [view_toolUse_none sth htu]
    exact SimOk_inert _ _ _ hwf rfl rfl rfl rfl (evDead_nil _)
  | some nc =>
    obtain ⟨n, i⟩ := nc
    rw [view_toolUse_some sth n i htu]
    have hi : i < sth.heap.length := hwf n i htu
    refine ⟨?_, ?_, ?_, ?_, ?_⟩
    · simp [view, htu, cellAt_append_lt _ _ _ hi]
    · simp [obsEvents, obsEv, cellAt_append_self]
    · intro n' i' hh
      have hh' : (some (n, i) : Option (Str × Nat)) = some (n', i') := hh
      simp at hh'
      obtain ⟨rfl, rfl⟩ := hh'
      simp
      omega
    · intro c hc
      obtain ⟨hc1, hc2⟩ := hc
      refine ⟨⟨?_, fun n' i' hh => hc2 n' i' (htu.trans (show (some (n, i) : Option (Str × Nat)) = some (n', i') from hh))⟩, ?_⟩
      · simp
        omega
      · show cellAt (sth.heap ++ [cellAt sth.heap i]) c = cellAt sth.heap c
        exact cellAt_append_lt _ _ _ hc1
    · intro e he
      rw [List.mem_singleton] at he
      subst he
      refine ⟨?_, ?_⟩
      · simp
      · intro n' i' hh
        have hh' : (some (n, i) : Option (Str × Nat)) = some (n', i') := hh
        simp at hh'
        obtain ⟨rfl, rfl⟩ := hh'
        omega

theorem chunkEndStoreH_sim (sth : StH) (hwf : WfH sth) :
    view (chunkEndStoreH sth) = chunkEndStore (view sth) ∧
    (chunkEndStoreH sth).currentToolUse = sth.currentToolUse ∧
    (chunkEndStoreH sth).heap.length = sth.heap.length ∧
    (∀ c, (∀ n i, sth.currentToolUse = some (n, i) → c ≠ i) → cellAt (chunkEndStoreH sth).heap c = cellAt sth.heap c) ∧
    WfH (chunkEndStoreH sth) := by
  unfold chunkEndStoreH chunkEndStore
  by_cases h1 : sth.pstate = PState.textContent ∧ sth.currentNode ≠ NodePos.root
  · rw [if_pos h1, if_pos (show (view sth).pstate = PState.textContent ∧ (view sth).currentNode ≠ NodePos.root from h1)]
    cases htu : sth.currentToolUse with
    | none =>
      have hsn : storeParamValueH sth = sth := storeParamValueH_none sth htu
      have hpp : storeParamValue (view sth) = view sth := by
        unfold storeParamValue
        rw [view_toolUse_none sth htu]
      rw [hsn, hpp]
      exact ⟨rfl, htu, rfl, fun c _ => rfl, hwf⟩
    | some nc =>
      obtain ⟨n, i⟩ := nc
      have hi : i < sth.heap.length := hwf n i htu
      cases hpn : sth.currentParamName with
      | none =>
        have hsn : storeParamValueH sth = sth := by
          unfold storeParamValueH
          rw [htu, hpn]
        have hpp : storeParamValue (view sth) = view sth := by
          unfold storeParamValue
          rw [view_toolUse_some sth n i htu, (show (view sth).currentParamName = none from hpn)]
        rw [hsn, hpp]
        exact ⟨rfl, htu, rfl, fun c _ => rfl, hwf⟩
      | some p =>
        have hs := storeParamValueH_some sth n i p htu hpn
        have hpp : storeParamValue (view sth) = { view sth with currentToolUse := some { name := n, params := setParam (cellAt sth.heap i) p sth.paramValueBuffer }, currentParamName := some p } := by
          unfold storeParamValue
          rw [view_toolUse_some sth n i htu, (show (view sth).currentParamName = some p from hpn)]
          rfl
        rw [hs, hpp]
        refine ⟨?_, htu, by simp, ?_, ?_⟩
        · simp [view, htu, hpn, cellAt_set_self _ _ _ hi]
        · intro c hcne
          have hne : c ≠ i := hcne n i (by simp [htu])
          show cellAt (sth.heap.set i _) c = cellAt sth.heap c
          exact cellAt_set_ne _ _ _ _ hne
        · intro n' i' hh
          have hh' : sth.currentToolUse = some (n', i') := hh
          rw [htu] at hh'
          simp at hh'
          obtain ⟨rfl, rfl⟩ := hh'
          simp
          exact hi
  · rw [if_neg h1, if_neg (show ¬ ((view sth).pstate = PState.textContent ∧ (view sth).currentNode ≠ NodePos.root) from h1)]
    exact ⟨rfl, rfl, rfl, fun c _ => rfl, hwf⟩

theorem emitPartialAtChunkEndH_sim (sth : StH) (hwf : WfH sth) :
    SimOk sth (emitPartialAtChunkEndH sth) (emitPartialAtChunkEnd (view sth)) := by
  unfold emitPartialAtChunkEndH emitPartialAtChunkEnd
  by_cases h1 : sth.pstate = PState.text ∧ sth.textBuffer ≠ []
  · rw [if_pos h1, if_pos (show (view sth).pstate = PState.text ∧ (view sth).textBuffer ≠ [] from h1)]
    by_cases h2 : jsTrim sth.textBuffer ≠ []
    · rw [if_pos h2, if_pos (show jsTrim (view sth).textBuffer ≠ [] from h2)]
      exact SimOk_inert _ _ _ hwf rfl rfl rfl rfl (evDead_text _ _ _)
    · rw [if_neg h2, if_neg (show ¬ jsTrim (view sth).textBuffer ≠ [] from h2)]
      exact SimOk_inert _ _ _ hwf rfl rfl rfl rfl (evDead_nil _)
  · rw [if_neg h1, if_neg (show ¬ ((view sth).pstate = PState.text ∧ (view sth).textBuffer ≠ []) from h1)]
    cases htu : sth.currentToolUse with
    | none =>
      rw [view_toolUse_none sth htu]
      exact SimOk_inert _ _ _ hwf rfl rfl rfl rfl (evDead_nil _)
    | some nc =>
      obtain ⟨n, i⟩ := nc
      rw [view_toolUse_some sth n i htu]
      obtain ⟨hv, hl, hlen, hcell, hwf2⟩ := chunkEndStoreH_sim sth hwf
      have hsim := emitToolSnapshotH_sim (chunkEndStoreH sth) hwf2
      rw [hv] at hsim
      exact SimOk_comp sth (chunkEndStoreH sth) _ _ hlen hl hcell hsim

theorem finalizeStepH_sim (sth : StH) (hwf : WfH sth) :
    SimOk sth (finalizeStepH sth) (finalizeStep (view sth)) := by
  show SimOk sth
    ({ initStH with heap := sth.heap },
     if sth.pstate = PState.text ∧ sth.textBuffer ≠ [] ∧ jsTrim sth.textBuffer ≠ [] then [EvH.text (jsTrim sth.textBuffer) false] else [])
    (initSt,
     if (view sth).pstate = PState.text ∧ (view sth).textBuffer ≠ [] ∧ jsTrim (view sth).textBuffer ≠ [] then [Ev.blk (Block.text (jsTrim (view sth).textBuffer) false)] else [])
  by_cases h1 : sth.pstate = PState.text ∧ sth.textBuffer ≠ [] ∧ jsTrim sth.textBuffer ≠ []
  · rw [if_pos h1, if_pos (show (view sth).pstate = PState.text ∧ (view sth).textBuffer ≠ [] ∧ jsTrim (view sth).textBuffer ≠ [] from h1)]
    exact SimOk_drop _ _ _ rfl rfl rfl rfl (evDead_text _ _ _)
  · rw [if_neg h1, if_neg (show ¬ ((view sth).pstate = PState.text ∧ (view sth).textBuffer ≠ [] ∧ jsTrim (view sth).textBuffer ≠ []) from h1)]
    exact SimOk_drop _ _ _ rfl rfl rfl rfl (evDead_nil _)

theorem stepOpH_sim (sch : Schema) (r : Bool) (sth : StH) (op : Op) (hwf : WfH sth) :
    SimOk sth (stepOpH sch r sth op) (stepOp sch r (view sth) op) := by
  cases op with
  | pc c => exact stepCharH_sim sch r sth c hwf
  | cut => exact emitPartialAtChunkEndH_sim sth hwf
  | fin => exact finalizeStepH_sim sth hwf

/-- Do two heaps give the same observation of one event? -/
def EvCellEq (h h2 : List PMap) : EvH → Prop
  | .tool _ i _ => cellAt h i = cellAt h2 i
  | _ => True

theorem obsEvents_append (h : List PMap) (a b : List EvH) :
    obsEvents h (a ++ b) = obsEvents h a ++ obsEvents h b :=
  List.map_append _ _ _

theorem obsEvents_eq (h h2 : List PMap) (evs : List EvH)
    (hc : ∀ e ∈ evs, EvCellEq h h2 e) : obsEvents h evs = obsEvents h2 evs := by
  induction evs with
  | nil => rfl
  | cons e rest ih =>
    have hh : obsEv h e = obsEv h2 e := by
      cases e with
      | text s b => rfl
      | err m => rfl
      | tool nm i b =>
        have := hc (EvH.tool nm i b) (List.mem_cons_self _ _)
        simp only [obsEv]
        rw [show cellAt h i = cellAt h2 i from this]
    simp only [obsEvents, List.map_cons]
    rw [hh]
    have := ih (fun e he => hc e (List.mem_cons_of_mem _ he))
    simp only [obsEvents] at this
    rw [this]

theorem execH_sim (sch : Schema) (r : Bool) (ops : List Op) :
    ∀ sth : StH, WfH sth →
      view (execH sch r sth ops).1 = (exec sch r (view sth) ops).1 ∧
      obsEvents (execH sch r sth ops).1.heap (execH sch r sth ops).2 = (exec sch r (view sth) ops).2 ∧
      WfH (execH sch r sth ops).1 ∧
      (∀ c, DeadC sth c → DeadC (execH sch r sth ops).1 c ∧ cellAt (execH sch r sth ops).1.heap c = cellAt sth.heap c) := by
  induction ops with
  | nil => intro sth hwf; exact ⟨rfl, rfl, hwf, fun c hc => ⟨hc, rfl⟩⟩
  | cons op rest ih =>
    intro sth hwf
    obtain ⟨hv1, he1, hwf1, hd1, hev1⟩ := stepOpH_sim sch r sth op hwf
    obtain ⟨hv2, he2, hwf2, hd2⟩ := ih (stepOpH sch r sth op).1 hwf1
    rw [hv1] at hv2 he2
    refine ⟨?_, ?_, ?_, ?_⟩
    · simp only [execH, exec]
      exact hv2
    · simp only [execH, exec]
      rw [obsEvents_append]
      have hpart1 : obsEvents (execH sch r (stepOpH sch r sth op).1 rest).1.heap (stepOpH sch r sth op).2 = (stepOp sch r (view sth) op).2 := by
        rw [obsEvents_eq (execH sch r (stepOpH sch r sth op).1 rest).1.heap (stepOpH sch r sth op).1.heap (stepOpH sch r sth op).2 ?_]
        · exact he1
        · intro e he
          have hed := hev1 e he
          cases e with
          | text s b => trivial
          | err m => trivial
          | tool nm i b =>
            obtain ⟨_, hcel⟩ := hd2 i hed
            exact hcel
      rw [hpart1, he2]
    · exact hwf2
    · intro c hc
      obtain ⟨hc1, hcel1⟩ := hd1 c hc
      obtain ⟨hc2, hcel2⟩ := hd2 c hc1
      exact ⟨hc2, hcel2.trans hcel1⟩

theorem WfH_of_liveLt (sth : StH) (h : liveLt sth = true) : WfH sth := by
  intro n i hh
  unfold liveLt at h
  rw [hh] at h
  exact of_decide_eq_true h

theorem WfH_mutateCell (sth : StH) (d : Nat) (m : PMap) (hwf : WfH sth) :
    WfH (mutateCell sth d m) := by
  intro n i hh
  have hh' : sth.currentToolUse = some (n, i) := hh
  simp [mutateCell]
  exact hwf n i hh'

theorem view_mutateCell (sth : StH) (d : Nat) (m : PMap) (hne : liveNe sth d = true) :
    view (mutateCell sth d m) = view sth := by
  cases htu : sth.currentToolUse with
  | none => simp [view, mutateCell, htu]
  | some nc =>
    obtain ⟨n, i⟩ := nc
    have hni : i ≠ d := by
      have h2 := hne
      unfold liveNe at h2
      rw [htu] at h2
      exact of_decide_eq_true h2
    simp [view, mutateCell, htu, cellAt_set_ne _ _ _ _ hni]

/-- C7: param map isolation.  (a) Frame property: mutate the params object
held in any cell `d` other than the parser's working cell — in particular any
cell previously delivered in an event, since a delivered cell is a fresh
snapshot copy or a finished tool-use whose reference the parser has dropped —
and every subsequently observed event of any continuation of the run is
unchanged.  (b) Every chunk-end partial ToolUse snapshot publishes a cell
distinct from the parser's working cell (the `{ ...params }` copy), so the
published map never aliases the working map. -/
theorem c7_param_map_isolation (sch : Schema) (r : Bool) (sth : StH) (d : Nat) (m : PMap) (ops : List Op)
    (hwf : liveLt sth = true) (hd : liveNe sth d = true) :
    obsEvents (execH sch r (mutateCell sth d m) ops).1.heap (execH sch r (mutateCell sth d m) ops).2 =
      obsEvents (execH sch r sth ops).1.heap (execH sch r sth ops).2
    ∧ (∀ nm c b, EvH.tool nm c b ∈ (emitPartialAtChunkEndH sth).2 →
        b = true ∧ ∀ n i, sth.currentToolUse = some (n, i) → c ≠ i) := by
  have hw := WfH_of_liveLt sth hwf
  constructor
  · have h1 := execH_sim sch r ops sth hw
    have h2 := execH_sim sch r ops (mutateCell sth d m) (WfH_mutateCell sth d m hw)
    rw [view_mutateCell sth d m hd] at h2
    rw [h1.2.1, h2.2.1]
  · intro nm c b hmem
    unfold emitPartialAtChunkEndH at hmem
    by_cases h1 : sth.pstate = PState.text ∧ sth.textBuffer ≠ []
    · rw [if_pos h1] at hmem
      by_cases h2 : jsTrim sth.textBuffer ≠ []
      · rw [if_pos h2] at hmem
        simp at hmem
      · rw [if_neg h2] at hmem
        simp at hmem
    · rw [if_neg h1] at hmem
      cases htu : sth.currentToolUse with
      | none =>
        rw [htu] at hmem
        exact ((List.not_mem_nil (EvH.tool nm c b)) hmem).elim
      | some nc =>
        obtain ⟨n, i⟩ := nc
        rw [htu] at hmem
        have hcs := chunkEndStoreH_sim sth hw
        have hlce : (chunkEndStoreH sth).currentToolUse = some (n, i) := hcs.2.1.trans htu
        have hsnap : (emitToolSnapshotH (chunkEndStoreH sth)).2 =
            [EvH.tool n (chunkEndStoreH sth).heap.length true] := by
          unfold emitToolSnapshotH
          rw [hlce]
        have hmem2 : EvH.tool nm c b ∈ (emitToolSnapshotH (chunkEndStoreH sth)).2 := hmem
        rw [hsnap] at hmem2
        rw [List.mem_singleton] at hmem2
        injection hmem2 with e1 e2 e3
        subst e1
        subst e2
        subst e3
        refine ⟨rfl, ?_⟩
        intro n2 i2 hh
        simp at hh
        obtain ⟨rfl, rfl⟩ := hh
        rw [hcs.2.2.1]
        have := hw nm i htu
        omega

/-- Witness for C7 at a concrete run: after `processChunk("<read_file><path>a")`
the parser holds working cell 0 and has delivered the snapshot copy in cell 1;
overwriting cell 1 does not change the observed events of the continuation
`processChunk("b"); finalize()`, and chunk-end snapshots stay off the working
cell. -/
theorem c7_param_map_isolation_witness :
    liveLt (runStateH sampleSchema false (chunkOps "<read_file><path>a".toList)) = true ∧
    liveNe (runStateH sampleSchema false (chunkOps "<read_file><path>a".toList)) 1 = true ∧
    (obsEvents (execH sampleSchema false (mutateCell (runStateH sampleSchema false (chunkOps "<read_file><path>a".toList)) 1 [("k".toList, "v".toList)]) (chunkOps "b".toList ++ [Op.fin])).1.heap
        (execH sampleSchema false (mutateCell (runStateH sampleSchema false (chunkOps "<read_file><path>a".toList)) 1 [("k".toList, "v".toList)]) (chunkOps "b".toList ++ [Op.fin])).2 =
      obsEvents (execH sampleSchema false (runStateH sampleSchema false (chunkOps "<read_file><path>a".toList)) (chunkOps "b".toList ++ [Op.fin])).1.heap
        (execH sampleSchema false (runStateH sampleSchema false (chunkOps "<read_file><path>a".toList)) (chunkOps "b".toList ++ [Op.fin])).2
     ∧ ∀ nm c b, EvH.tool nm c b ∈ (emitPartialAtChunkEndH (runStateH sampleSchema false (chunkOps "<read_file><path>a".toList))).2 →
        b = true ∧ ∀ n i, (runStateH sampleSchema false (chunkOps "<read_file><path>a".toList)).currentToolUse = some (n, i) → c ≠ i) :=
  ⟨by decide, by decide,
   c7_param_map_isolation sampleSchema false
     (runStateH sampleSchema false (chunkOps "<read_file><path>a".toList)) 1
     [("k".toList, "v".toList)] (chunkOps "b".toList ++ [Op.fin])
     (by decide) (by decide)⟩

end STP
